import Mathlib

/-!
Formal model of the interrupt-bridged completion core of the `embassy-gd32` /
`embassy-cortex-m` hardware abstraction layer: the DMA completion future
(`embassy-gd32/src/dma.rs`), the buffered UART (`embassy-gd32/src/usart/buffered.rs`),
the SysTick time driver (`embassy-cortex-m/src/systick.rs`) and the RTC time driver
(`embassy-gd32/src/timedriver_rtc.rs`).

Rust functions are embedded as pure Lean functions on explicit state; machine integers
become `Nat` with explicit `% 2 ^ 64` / `% 2 ^ 32` where wraparound matters; interrupt
handlers and critical sections become atomic state-transition functions.  External
crates (`embassy-sync`'s `WakerRegistration`, `embassy-hal-common`'s
`atomic_ring_buffer`) are modelled from the specification, as noted at each definition.
-/

set_option maxRecDepth 8192

namespace Gd32

/-- Mirrors `core::task::Poll`: either a resolved value or a suspension. -/
inductive Poll (α : Type) where
  | ready (value : α)
  | pending
  deriving DecidableEq, Repr

/-- `u64::MAX`, the sentinel deadline of an inactive alarm slot. -/
def U64MAX : Nat := 2 ^ 64 - 1

/-- Modulus of 64-bit arithmetic. -/
def U64MOD : Nat := 2 ^ 64

/-- Modulus of 32-bit arithmetic. -/
def U32MOD : Nat := 2 ^ 32

namespace Dma

/-- `dma::Error` (dma.rs line 88): the only variant is `TransferError`. -/
inductive Error where
  | TransferError
  deriving DecidableEq, Repr

/-- `ChannelStateInner` (dma.rs lines 16-19): the per-channel completion flag together
with the waker slot.  `WakerRegistration` is external (`embassy-sync`); modelled from
the spec (Waker Bridge, spec section 4.1): the slot parks at most one task waker, here
represented by the task id, `none` meaning empty (`WakerRegistration::new`). -/
structure ChannelStateInner where
  signal : Bool
  waker : Option Nat
  deriving DecidableEq, Repr

/-- `ChannelStateInner::new` (dma.rs lines 22-27). -/
def ChannelStateInner.new : ChannelStateInner :=
  { signal := false, waker := none }

/-- The two per-channel interrupt-flag bits of the `intf` register that the driver
inspects or raises: `ftfifN` (full transfer finish) and `errifN` (transfer error). -/
structure ChannelFlags where
  ftf : Bool
  err : Bool
  deriving DecidableEq, Repr

/-- One DMA channel interrupt handler (`DMA0_CHANNELn`, dma.rs lines 415-428) combined
with `ChannelState::interrupt` (dma.rs lines 55-59): the handler reads `intf`, only
*logs* when the error flag is set, clears all four interrupt flags of the channel
(`intc` write), then sets the completion signal and wakes the parked waker.
Result: (flags after, state after, whether "error" was logged, waker woken). -/
def channelInterrupt (flags : ChannelFlags) (s : ChannelStateInner) :
    ChannelFlags × ChannelStateInner × Bool × Option Nat :=
  ({ ftf := false, err := false }, { signal := true, waker := none }, flags.err, s.waker)

/-- `impl Future for Transfer::poll` (dma.rs lines 262-277): inside the channel's
interrupt-disabled scope (`ChannelState::with`), if the signal flag is set resolve
`Ready(Ok(()))`; otherwise register the polling task's waker and return `Pending`. -/
def Transfer.poll (w : Nat) (s : ChannelStateInner) :
    Poll (Except Error Unit) × ChannelStateInner :=
  if s.signal then (.ready (.ok ()), s)
  else (.pending, { s with waker := some w })

/-- `PNAGA_A` / `MNAGA` address-generation mode: increment after each word, or fixed. -/
inductive Pnaga where
  | increment
  | fixed
  deriving DecidableEq, Repr

/-- `DIR_A` transfer direction bit. -/
inductive Dir where
  | fromPeripheral
  | fromMemory
  deriving DecidableEq, Repr

/-- The channel control register value assembled by `read_inner` (dma.rs lines 135-147)
and `write_inner` (dma.rs lines 203-215): memory and peripheral word widths, memory
address generation, direction, transfer-finish interrupt enable, channel enable. -/
structure CtrlReg where
  mwidth : Nat
  pwidth : Nat
  mnaga : Pnaga
  dir : Dir
  ftfie : Bool
  chen : Bool
  deriving DecidableEq, Repr

/-- The per-channel configuration registers written by `configure_channel`
(dma.rs lines 237-259).  `ctl = none` models the cleared (channel disabled) control
register. -/
structure ChannelRegs where
  ctl : Option CtrlReg
  cnt : Nat
  membase : Nat
  perbase : Nat
  deriving DecidableEq, Repr

/-- `configure_channel` (dma.rs lines 237-259): first disable the channel by clearing
its control register, program count, memory base and peripheral base, then write the
assembled control value. -/
def configure_channel (regs : ChannelRegs) (memAddr perAddr : Nat) (ctrl : CtrlReg)
    (count : Nat) : ChannelRegs :=
  let regs := { regs with ctl := none }
  let regs := { regs with cnt := count }
  let regs := { regs with membase := memAddr }
  let regs := { regs with perbase := perAddr }
  { regs with ctl := some ctrl }

/-- `read_inner` (dma.rs lines 125-167): assemble the control value
(direction FROM_PERIPHERAL, `ftfie` and `chen` set), then, inside the channel's
interrupt-disabled scope (`ChannelState::with`, dma.rs lines 44-53), reset the
completion signal, reset the waker registration, and configure the channel.
`sw`/`dw` are the source and destination word widths. -/
def read_inner (mnaga : Pnaga) (sw dw : Nat) (src dest : Nat) (count : Nat)
    (s : ChannelStateInner) (regs : ChannelRegs) : ChannelStateInner × ChannelRegs :=
  let ctrl : CtrlReg :=
    { mwidth := dw, pwidth := sw, mnaga := mnaga, dir := .fromPeripheral,
      ftfie := true, chen := true }
  let s := { s with signal := false }
  let s := { s with waker := none }
  (s, configure_channel regs dest src ctrl count)

/-- `dma::read` (dma.rs lines 105-112). -/
def read (sw dw : Nat) (src dest : Nat) (count : Nat) (s : ChannelStateInner)
    (regs : ChannelRegs) : ChannelStateInner × ChannelRegs :=
  read_inner .increment sw dw src dest count s regs

/-- `dma::read_repeated` (dma.rs lines 116-123). -/
def read_repeated (sw dw : Nat) (src dest : Nat) (count : Nat) (s : ChannelStateInner)
    (regs : ChannelRegs) : ChannelStateInner × ChannelRegs :=
  read_inner .fixed sw dw src dest count s regs

/-- `write_inner` (dma.rs lines 192-235): like `read_inner` with direction
FROM_MEMORY and the width roles swapped. -/
def write_inner (mnaga : Pnaga) (sw dw : Nat) (src dest : Nat) (count : Nat)
    (s : ChannelStateInner) (regs : ChannelRegs) : ChannelStateInner × ChannelRegs :=
  let ctrl : CtrlReg :=
    { mwidth := sw, pwidth := dw, mnaga := mnaga, dir := .fromMemory,
      ftfie := true, chen := true }
  let s := { s with signal := false }
  let s := { s with waker := none }
  (s, configure_channel regs src dest ctrl count)

/-- `dma::write` (dma.rs lines 171-178). -/
def write (sw dw : Nat) (src dest : Nat) (count : Nat) (s : ChannelStateInner)
    (regs : ChannelRegs) : ChannelStateInner × ChannelRegs :=
  write_inner .increment sw dw src dest count s regs

/-- `dma::write_repeated` (dma.rs lines 182-190): the source is the address of a local
one-element buffer holding `value`; the address-generation mode is fixed. -/
def write_repeated (sw dw : Nat) (srcLocal dest : Nat) (count : Nat)
    (s : ChannelStateInner) (regs : ChannelRegs) : ChannelStateInner × ChannelRegs :=
  write_inner .fixed sw dw srcLocal dest count s regs

end Dma

namespace Uart

/-- Modelled from the spec: `embassy-hal-common`'s `atomic_ring_buffer::RingBuffer`
(external crate, only used from src/), per spec section 3 "RingBuffer": a
fixed-capacity single-producer/single-consumer circular byte buffer whose `head`/`tail`
indices advance freely; `available = head - tail`; empty iff `head = tail`; full iff
`head - tail = capacity`; the producer only advances `head`, the consumer only
advances `tail`; reads and writes at physical position `index % capacity`. -/
structure RingBuffer where
  cap : Nat
  data : List Nat
  head : Nat
  tail : Nat
  deriving DecidableEq, Repr

/-- Well-formedness of a ring buffer: the storage has exactly `cap` cells, the indices
never run apart by more than `cap`, and the capacity is positive (the buffers are
initialised over non-empty caller storage). -/
def RingBuffer.wf (rb : RingBuffer) : Prop :=
  rb.data.length = rb.cap ∧ rb.tail ≤ rb.head ∧ rb.head - rb.tail ≤ rb.cap ∧ 0 < rb.cap

instance (rb : RingBuffer) : Decidable rb.wf := by
  unfold RingBuffer.wf; infer_instance

/-- Number of buffered bytes. -/
def RingBuffer.available (rb : RingBuffer) : Nat := rb.head - rb.tail

/-- The buffered bytes in FIFO order (oldest first). -/
def RingBuffer.contents (rb : RingBuffer) : List Nat :=
  (List.range rb.available).map (fun k => rb.data.getD ((rb.tail + k) % rb.cap) 0)

/-- Modelled from the spec: `RingBuffer::is_empty`. -/
def RingBuffer.is_empty (rb : RingBuffer) : Bool := rb.head == rb.tail

/-- Modelled from the spec: `Writer::push_one` — reject (returning `false`, buffer
untouched) when full, otherwise store the byte at the head position and advance
`head`. -/
def RingBuffer.push_one (rb : RingBuffer) (b : Nat) : Bool × RingBuffer :=
  if rb.head - rb.tail = rb.cap then (false, rb)
  else (true, { rb with data := rb.data.set (rb.head % rb.cap) b, head := rb.head + 1 })

/-- Modelled from the spec: `Reader::pop_one` — `none` when empty, otherwise the
oldest byte, advancing `tail`. -/
def RingBuffer.pop_one (rb : RingBuffer) : Option Nat × RingBuffer :=
  if rb.head = rb.tail then (none, rb)
  else (some (rb.data.getD (rb.tail % rb.cap) 0), { rb with tail := rb.tail + 1 })

/-- Modelled from the spec: `Reader::pop_buf` — the contiguous run of buffered bytes
starting at the tail position: at most up to the end of the storage
(`cap - tail % cap` cells) and at most `available` bytes.  Returns the run and its
length (the source returns the pointer and the length). -/
def RingBuffer.pop_buf (rb : RingBuffer) : List Nat × Nat :=
  let n := min rb.available (rb.cap - rb.tail % rb.cap)
  ((List.range n).map (fun k => rb.data.getD (rb.tail % rb.cap + k) 0), n)

/-- Modelled from the spec: `Reader::pop_done len` — consume `len` bytes by advancing
`tail`. -/
def RingBuffer.pop_done (rb : RingBuffer) (len : Nat) : RingBuffer :=
  { rb with tail := rb.tail + len }

/-- `UartBuffered::inner_read` (buffered.rs lines 83-107), one poll of the returned
future: under the peripheral-interrupt critical section (`inner.with`) pop the
contiguous run of the RX ring buffer; if it is empty register the polling task's waker
on `rx_waker` and return `Pending`; otherwise copy `min(run, buf.len())` bytes into
the caller's buffer, mark them consumed (`pop_done`) and resolve `Ready(Ok(len))`.
Returns (poll result carrying the copied bytes, RX buffer after, whether the waker was
registered). -/
def inner_read (rx : RingBuffer) (bufLen : Nat) :
    Poll (List Nat) × RingBuffer × Bool :=
  let popped := rx.pop_buf
  if popped.2 = 0 then (.pending, rx, true)
  else
    let len := min popped.2 bufLen
    (.ready (popped.1.take len), rx.pop_done len, false)

/-- The five `stat0` bits that `StateInner::on_interrupt` reads: overrun, noise,
framing and parity error flags, receive-buffer-not-empty, transmit-buffer-empty. -/
structure Stat0 where
  orerr : Bool
  nerr : Bool
  ferr : Bool
  perr : Bool
  rbne : Bool
  tbe : Bool
  deriving DecidableEq, Repr

/-- The warnings that `on_interrupt` can log. -/
inductive Warning where
  | overrunError
  | noiseError
  | frameError
  | parityError
  | rxBufferFull
  deriving DecidableEq, Repr

/-- Observable effects of one UART interrupt: logged warnings, whether `rx_waker.wake`
and `tx_waker.wake` were called, and the byte written to the hardware data
register (if any). -/
structure IrqEffects where
  warnings : List Warning
  rxWake : Bool
  txWake : Bool
  wroteData : Option Nat
  deriving DecidableEq, Repr

/-- Mutable state touched by the UART interrupt: both ring buffers, the hardware data
register, and the transmit-buffer-empty interrupt-enable bit (`tbeie`). -/
structure UartIrqState where
  rx : RingBuffer
  tx : RingBuffer
  dataReg : Nat
  tbeie : Bool
  deriving DecidableEq, Repr

/-- First block of `StateInner::on_interrupt` (buffered.rs lines 315-331): one logged
warning per set line-error flag (overrun, noise, framing, parity). -/
def line_warnings (stat0 : Stat0) : List Warning :=
  (if stat0.orerr then [Warning.overrunError] else []) ++
  (if stat0.nerr then [Warning.noiseError] else []) ++
  (if stat0.ferr then [Warning.frameError] else []) ++
  (if stat0.perr then [Warning.parityError] else [])

/-- RX block of `StateInner::on_interrupt` (buffered.rs lines 333-339): when `rbne` is
set, read the byte from the data register, push it into the RX ring buffer — logging a
"RX buffer full" warning when the push is rejected — and wake the RX waker.
Returns (state after, rx waker woken, extra warnings). -/
def rx_service (stat0 : Stat0) (st : UartIrqState) :
    UartIrqState × Bool × List Warning :=
  if stat0.rbne then
    let byte := st.dataReg
    let pushed := st.rx.push_one byte
    ({ st with rx := pushed.2 }, true,
      if pushed.1 then [] else [Warning.rxBufferFull])
  else (st, false, [])

/-- TX block of `StateInner::on_interrupt` (buffered.rs lines 341-349): when `tbe` is
set, pop one byte from the TX ring buffer; if one was available write it to the data
register and wake the TX waker, otherwise disable the `tbeie` interrupt (without
waking the TX waker).  Returns (state after, tx waker woken, byte written). -/
def tx_service (stat0 : Stat0) (st : UartIrqState) :
    UartIrqState × Bool × Option Nat :=
  if stat0.tbe then
    match st.tx.pop_one with
    | (some byte, tx) => ({ st with tx := tx, dataReg := byte }, true, some byte)
    | (none, _) => ({ st with tbeie := false }, false, none)
  else (st, false, none)

/-- `StateInner::on_interrupt` (buffered.rs lines 312-351): the three blocks in source
order — line-error warnings, RX servicing, TX servicing. -/
def on_interrupt (stat0 : Stat0) (st : UartIrqState) : UartIrqState × IrqEffects :=
  let r := rx_service stat0 st
  let t := tx_service stat0 r.1
  (t.1,
    { warnings := line_warnings stat0 ++ r.2.2, rxWake := r.2.1, txWake := t.2.1,
      wroteData := t.2.2 })

end Uart

/-- Modelled from the spec: alarm callbacks are opaque function pointers
(`fn(*mut ())`) invoked with their stored context.  The only interaction with the
driver the spec ascribes to them is an optional re-arming `set_alarm` call from inside
the callback; a callback environment maps (callback, context) to the (handle,
timestamp) pair of that optional re-arm request. -/
def CbEnv : Type := Nat → Nat → Option (Nat × Nat)

/-- The environment of callbacks that perform no re-arm. -/
def noRearm : CbEnv := fun _ _ => none

namespace Systick

/-- `ALARM_COUNT` (systick.rs line 11). -/
def ALARM_COUNT : Nat := 4

/-- `AlarmState` (systick.rs lines 51-55): deadline, callback function pointer,
context pointer (pointers modelled as opaque numbers). -/
structure AlarmState where
  ts : Nat
  callback : Nat
  ctx : Nat
  deriving DecidableEq, Repr

/-- `AlarmState::new` (systick.rs lines 58-64): inactive (`u64::MAX`), null
pointers. -/
def AlarmState.new : AlarmState :=
  { ts := U64MAX, callback := 0, ctx := 0 }

/-- `SystickDriver` (systick.rs lines 13-17). -/
structure SystickDriver where
  ts : Nat
  alarm_count : Nat
  alarms : List AlarmState
  deriving DecidableEq, Repr

/-- Structural well-formedness: the slot array has exactly `ALARM_COUNT` cells and
the allocation count never exceeds it (`allocate_alarm` guarantees the latter). -/
def SystickDriver.wf (d : SystickDriver) : Prop :=
  d.alarms.length = ALARM_COUNT ∧ d.alarm_count ≤ ALARM_COUNT

instance (d : SystickDriver) : Decidable d.wf := by
  unfold SystickDriver.wf; infer_instance

/-- `SystickDriver::now` (systick.rs lines 82-84): one atomic load. -/
def SystickDriver.now (d : SystickDriver) : Nat := d.ts

/-- `SystickDriver::allocate_alarm` (systick.rs lines 86-99): compare-and-increment on
the allocation count, `none` once exhausted. -/
def allocate_alarm (d : SystickDriver) : Option Nat × SystickDriver :=
  if d.alarm_count < ALARM_COUNT then
    (some d.alarm_count, { d with alarm_count := d.alarm_count + 1 })
  else (none, d)

/-- `SystickDriver::set_alarm_callback` (systick.rs lines 101-107). -/
def set_alarm_callback (d : SystickDriver) (id cb ctx : Nat) : SystickDriver :=
  let a := { d.alarms.getD id AlarmState.new with callback := cb, ctx := ctx }
  { d with alarms := d.alarms.set id a }

/-- `SystickDriver::set_alarm` (systick.rs lines 109-119): reject (returning `false`
with the driver untouched) when `timestamp ≤ now`, otherwise store the deadline and
return `true`. -/
def set_alarm (d : SystickDriver) (id timestamp : Nat) : Bool × SystickDriver :=
  if timestamp ≤ d.now then (false, d)
  else
    let a := { d.alarms.getD id AlarmState.new with ts := timestamp }
    (true, { d with alarms := d.alarms.set id a })

/-- The deadline reset performed by `AlarmState::trigger` (systick.rs line 67):
`self.ts = u64::MAX` on slot `i`. -/
def reset_slot (d : SystickDriver) (i : Nat) : SystickDriver :=
  let a := { d.alarms.getD i AlarmState.new with ts := U64MAX }
  { d with alarms := d.alarms.set i a }

/-- `AlarmState::trigger` (systick.rs lines 66-71) acting on slot `i`: reset the
deadline to `u64::MAX` FIRST, then invoke the stored callback with its context; the
callback may re-arm through `set_alarm` per the environment `env`. -/
def trigger (env : CbEnv) (d : SystickDriver) (i : Nat) : SystickDriver :=
  match env (d.alarms.getD i AlarmState.new).callback
      (d.alarms.getD i AlarmState.new).ctx with
  | some (h, t) => (set_alarm (reset_slot d i) h t).2
  | none => reset_slot d i

/-- The alarm scan of `systick_timedriver_interrupt` (systick.rs lines 139-144) over
the slot indices `is`, comparing each deadline against the pre-increment tick value
`old`; returns the final driver state and the invocation record
(slot, callback, context) of each triggered alarm, in order. -/
def scan (env : CbEnv) (old : Nat) : List Nat → SystickDriver →
    SystickDriver × List (Nat × Nat × Nat)
  | [], d => (d, [])
  | i :: rest, d =>
    if (d.alarms.getD i AlarmState.new).ts ≤ old then
      ((scan env old rest (trigger env d i)).1,
        (i, (d.alarms.getD i AlarmState.new).callback,
          (d.alarms.getD i AlarmState.new).ctx) ::
          (scan env old rest (trigger env d i)).2)
    else scan env old rest d

/-- `systick_timedriver_interrupt` (systick.rs lines 137-145): `fetch_add(1)` on the
tick count (64-bit wrapping; the comparison value `ts` is the OLD, pre-increment
count), then trigger every allocated slot whose deadline is ≤ that old value. -/
def interrupt (env : CbEnv) (d : SystickDriver) :
    SystickDriver × List (Nat × Nat × Nat) :=
  let old := d.ts
  let d1 := { d with ts := (d.ts + 1) % U64MOD }
  scan env old (List.range d1.alarm_count) d1

/-- `k` consecutive SysTick interrupts with non-re-arming callbacks, accumulating the
invocation records. -/
def run (k : Nat) (d : SystickDriver) : SystickDriver × List (Nat × Nat × Nat) :=
  match k with
  | 0 => (d, [])
  | k + 1 =>
    let r := interrupt noRearm d
    let s := run k r.1
    (s.1, r.2 ++ s.2)

end Systick

namespace Rtc

/-- `ALARM_COUNT` (timedriver_rtc.rs line 18). -/
def ALARM_COUNT : Nat := 3

/-- `AlarmState` (timedriver_rtc.rs lines 26-30). -/
structure AlarmState where
  timestamp : Nat
  callback : Nat
  ctx : Nat
  deriving DecidableEq, Repr

/-- `AlarmState::new` (timedriver_rtc.rs lines 34-42). -/
def AlarmState.new : AlarmState :=
  { timestamp := U64MAX, callback := 0, ctx := 0 }

/-- The RTC hardware registers the driver touches: the free-running 32-bit counter
(`cnth`/`cntl`), the overflow flag `ovif`, the alarm flag `alrmif` and the 32-bit
alarm compare register (`alrmh`/`alrml`). -/
structure RtcHw where
  cnt : Nat
  ovif : Bool
  alrmif : Bool
  alrm : Nat
  deriving DecidableEq, Repr

/-- One tick of the hardware counter: increment modulo `2^32`, raising the overflow
flag on wraparound. -/
def tickHw (hw : RtcHw) : RtcHw :=
  { hw with cnt := (hw.cnt + 1) % U32MOD,
            ovif := hw.ovif || (hw.cnt + 1 == U32MOD) }

/-- `RtcState` (timedriver_rtc.rs lines 44-48): the count of 2^32-counter overflows
since boot (a u32) and the counter value of the last read. -/
structure RtcState where
  period : Nat
  last_read_value : Nat
  deriving DecidableEq, Repr

/-- The `cnth` register read: high 16 bits of the counter. -/
def read_cnth (hw : RtcHw) : Nat := hw.cnt / 2 ^ 16

/-- The `cntl` register read: low 16 bits of the counter. -/
def read_cntl (hw : RtcHw) : Nat := hw.cnt % 2 ^ 16

/-- `read_counter` (timedriver_rtc.rs lines 73-76): `cnth << 16 | cntl`; the bitwise
or is addition because the low half is below `2^16`. -/
def read_counter (hw : RtcHw) : Nat :=
  read_cnth hw * 2 ^ 16 + read_cntl hw

/-- The `ctl.modify` block of `RtcState::read_time` (timedriver_rtc.rs lines 54-62):
read and clear the overflow flag, incrementing `period` (wrapping u32) when it was
set. -/
def read_time_flag_step (hw : RtcHw) (s : RtcState) : RtcHw × RtcState :=
  ({ hw with ovif := false },
   if hw.ovif then { s with period := (s.period + 1) % U32MOD } else s)

/-- `RtcState::read_time` (timedriver_rtc.rs lines 51-70) executed atomically (no
hardware tick between its register accesses): flag step, then read the counter,
record it, and compose `period << 32 | counter` (the or is addition: the counter is
below `2^32`). -/
def read_time (hw : RtcHw) (s : RtcState) : Nat × RtcHw × RtcState :=
  let p := read_time_flag_step hw s
  let counter := read_counter p.1
  let s1 := { p.2 with last_read_value := counter }
  (s1.period * U32MOD + counter, p.1, s1)

/-- Iterated hardware ticks. -/
def ticks (k : Nat) (hw : RtcHw) : RtcHw :=
  match k with
  | 0 => hw
  | k + 1 => ticks k (tickHw hw)

/-- `read_time` with `k` hardware counter ticks falling into the window between the
overflow-flag access (`ctl.modify`, line 55) and the counter read (line 64) — the
counter is not stopped by the critical section, so this interleaving is possible on
the hardware. -/
def read_time_with_ticks (k : Nat) (hw : RtcHw) (s : RtcState) :
    Nat × RtcHw × RtcState :=
  let p := read_time_flag_step hw s
  let hw1 := ticks k p.1
  let counter := read_counter hw1
  let s1 := { p.2 with last_read_value := counter }
  (s1.period * U32MOD + counter, hw1, s1)

/-- `RtcDriver` (timedriver_rtc.rs lines 20-24) bundled with the RTC hardware it
drives. -/
structure RtcDriver where
  hw : RtcHw
  state : RtcState
  alarm_count : Nat
  alarms : List AlarmState
  deriving DecidableEq, Repr

/-- Structural well-formedness of the driver. -/
def RtcDriver.wf (d : RtcDriver) : Prop :=
  d.alarms.length = ALARM_COUNT ∧ d.alarm_count ≤ ALARM_COUNT

instance (d : RtcDriver) : Decidable d.wf := by
  unfold RtcDriver.wf; infer_instance

/-- `RtcDriver::now` (timedriver_rtc.rs lines 197-202): `read_time` on the locked
state (the lock is a critical section; the call is atomic here). -/
def now (d : RtcDriver) : Nat × RtcDriver :=
  let r := read_time d.hw d.state
  (r.1, { d with hw := r.2.1, state := r.2.2 })

/-- `RtcDriver::allocate_alarm` (timedriver_rtc.rs lines 204-217). -/
def allocate_alarm (d : RtcDriver) : Option Nat × RtcDriver :=
  if d.alarm_count < ALARM_COUNT then
    (some d.alarm_count, { d with alarm_count := d.alarm_count + 1 })
  else (none, d)

/-- `RtcDriver::set_alarm_callback` (timedriver_rtc.rs lines 219-225). -/
def set_alarm_callback (d : RtcDriver) (id cb ctx : Nat) : RtcDriver :=
  let a := { d.alarms.getD id AlarmState.new with callback := cb, ctx := ctx }
  { d with alarms := d.alarms.set id a }

/-- `RtcDriver::get_next` (timedriver_rtc.rs lines 173-180): minimum deadline over the
allocated slots, starting from `u64::MAX`. -/
def get_next (d : RtcDriver) : Nat :=
  List.foldl (fun m i => min m (d.alarms.getD i AlarmState.new).timestamp) U64MAX
    (List.range d.alarm_count)

/-- `RtcDriver::reset_alarm` (timedriver_rtc.rs lines 182-191): program the 32-bit
alarm compare register with the low 32 bits of the nearest pending deadline. -/
def reset_alarm (d : RtcDriver) : RtcDriver :=
  { d with hw := { d.hw with alrm := get_next d % U32MOD } }

/-- `RtcDriver::set_alarm` (timedriver_rtc.rs lines 227-242): compute `now` (a
mutating `read_time`), reject (returning `false`, alarm table untouched) when
`timestamp ≤ now`; otherwise store the deadline and reprogram the compare
register. -/
def set_alarm (d : RtcDriver) (id timestamp : Nat) : Bool × RtcDriver :=
  let n := now d
  if timestamp ≤ n.1 then (false, n.2)
  else
    let a := { n.2.alarms.getD id AlarmState.new with timestamp := timestamp }
    let d2 := { n.2 with alarms := n.2.alarms.set id a }
    (true, reset_alarm d2)

/-- The deadline reset performed on a due slot (timedriver_rtc.rs line 157):
`a.timestamp.set(u64::MAX)` on slot `i`. -/
def reset_slot (d : RtcDriver) (i : Nat) : RtcDriver :=
  let a := { d.alarms.getD i AlarmState.new with timestamp := U64MAX }
  { d with alarms := d.alarms.set i a }

/-- The trigger step of the scan (timedriver_rtc.rs lines 156-159) on slot `i`: reset
the deadline to `u64::MAX` FIRST, then invoke the stored callback with its context;
the callback may re-arm through `set_alarm` per the environment `env`. -/
def trigger (env : CbEnv) (d : RtcDriver) (i : Nat) : RtcDriver :=
  match env (d.alarms.getD i AlarmState.new).callback
      (d.alarms.getD i AlarmState.new).ctx with
  | some (h, t) => (set_alarm (reset_slot d i) h t).2
  | none => reset_slot d i

/-- The alarm scan of `RtcDriver::on_interrupt` (timedriver_rtc.rs lines 154-161) at
time `nowv` over the slot indices `is`: each due slot is triggered; returns the final
state and the invocation records (slot, callback, context). -/
def scan (env : CbEnv) (nowv : Nat) : List Nat → RtcDriver →
    RtcDriver × List (Nat × Nat × Nat)
  | [], d => (d, [])
  | i :: rest, d =>
    if (d.alarms.getD i AlarmState.new).timestamp ≤ nowv then
      ((scan env nowv rest (trigger env d i)).1,
        (i, (d.alarms.getD i AlarmState.new).callback,
          (d.alarms.getD i AlarmState.new).ctx) ::
          (scan env nowv rest (trigger env d i)).2)
    else scan env nowv rest d

/-- `RtcDriver::on_interrupt` (timedriver_rtc.rs lines 139-165): read and clear
`alrmif`, then inside one critical section recompute `now` via `read_time`, trigger
every allocated slot whose deadline is ≤ now, and reprogram the compare register. -/
def on_interrupt (env : CbEnv) (d : RtcDriver) :
    RtcDriver × List (Nat × Nat × Nat) :=
  let d0 := { d with hw := { d.hw with alrmif := false } }
  let n := now d0
  let r := scan env n.1 (List.range n.2.alarm_count) n.2
  (reset_alarm r.1, r.2)

/-- Events of the monotonic-clock interleaving model: a hardware counter tick, or an
atomic `read_time` call (a task's `now()`, or the RTC interrupt's own read — both run
inside one critical section). -/
inductive ClockEvent where
  | tick
  | read
  deriving DecidableEq, Repr

/-- Run a sequence of clock events, collecting the value returned by every read. -/
def runClock : List ClockEvent → RtcHw × RtcState → (RtcHw × RtcState) × List Nat
  | [], p => (p, [])
  | .tick :: rest, p => runClock rest (tickHw p.1, p.2)
  | .read :: rest, p =>
    let r := read_time p.1 p.2
    let q := runClock rest (r.2.1, r.2.2)
    (q.1, r.1 :: q.2)

/-- The monotonicity invariant bound of the clock model: every value a `read_time`
call has returned so far is at most this quantity, which never decreases along the
trace.  With a pending overflow the next read reports at least `(period + 1) << 32`;
without one it reports exactly `period << 32 + counter`. -/
def clockBound (hw : RtcHw) (s : RtcState) : Nat :=
  if hw.ovif then (s.period + 1) * U32MOD else s.period * U32MOD + hw.cnt

end Rtc

/-- A concrete SysTick driver state used to evaluate the theorems: tick count 10, one
allocated slot armed at deadline 100 with callback 1 and context 2. -/
def Systick.sample : Systick.SystickDriver :=
  ⟨10, 1, [⟨100, 1, 2⟩, Systick.AlarmState.new, Systick.AlarmState.new,
    Systick.AlarmState.new]⟩

/-- A concrete RTC driver state used to evaluate the theorems: counter 50, no pending
overflow, one allocated slot armed at deadline 100 with callback 1 and context 2. -/
def Rtc.sample : Rtc.RtcDriver :=
  ⟨⟨50, false, false, 0⟩, ⟨0, 0⟩, 1, [⟨100, 1, 2⟩, Rtc.AlarmState.new,
    Rtc.AlarmState.new]⟩

/-- A concrete SysTick driver one tick before an armed deadline: tick count 5, one
allocated slot armed at deadline 6 with callback 7 and context 8. -/
def Systick.boundarySample : Systick.SystickDriver :=
  ⟨5, 1, [⟨6, 7, 8⟩, Systick.AlarmState.new, Systick.AlarmState.new,
    Systick.AlarmState.new]⟩

/-- A concrete RTC driver whose armed slot is already due: counter 50, slot 0 armed
at deadline 30 with callback 1 and context 2. -/
def Rtc.dueSample : Rtc.RtcDriver :=
  ⟨⟨50, false, false, 0⟩, ⟨0, 0⟩, 1, [⟨30, 1, 2⟩, Rtc.AlarmState.new,
    Rtc.AlarmState.new]⟩

end Gd32

/-! ## Theorems -/

namespace Gd32

/-- `getD` after `set` at the written index. -/
theorem getD_set_self {α : Type} (l : List α) (i : Nat) (a dflt : α)
    (h : i < l.length) : (l.set i a).getD i dflt = a := by
  rw [List.getD_eq_getElem?_getD, List.getElem?_set]
  simp [h]

/-- `getD` after `set` at a different index. -/
theorem getD_set_ne {α : Type} (l : List α) (i j : Nat) (a dflt : α)
    (h : i ≠ j) : (l.set i a).getD j dflt = l.getD j dflt := by
  rw [List.getD_eq_getElem?_getD, List.getElem?_set, if_neg h,
    ← List.getD_eq_getElem?_getD]

/-- Claim C4: for both time drivers, `set_alarm(h, t)` returns `false` exactly when
`t ≤ now()` as sampled by the call itself; on `false` the alarm table entry is left
unchanged (the SysTick driver is entirely untouched; the RTC driver's alarm table is
untouched, though its `now()` read advances the clock bookkeeping), and on `true` the
slot's deadline is set to `t`. -/
theorem c4_set_alarm_rejects_past (d : Systick.SystickDriver) (dr : Rtc.RtcDriver)
    (id idr t tr : Nat) (hid : id < d.alarms.length)
    (hidr : idr < dr.alarms.length) :
    (((Systick.set_alarm d id t).1 = false ↔ t ≤ d.now) ∧
      ((Systick.set_alarm d id t).1 = false → (Systick.set_alarm d id t).2 = d) ∧
      ((Systick.set_alarm d id t).1 = true →
        ((Systick.set_alarm d id t).2.alarms.getD id Systick.AlarmState.new).ts
          = t)) ∧
    (((Rtc.set_alarm dr idr tr).1 = false ↔ tr ≤ (Rtc.now dr).1) ∧
      ((Rtc.set_alarm dr idr tr).1 = false →
        (Rtc.set_alarm dr idr tr).2.alarms = dr.alarms) ∧
      ((Rtc.set_alarm dr idr tr).1 = true →
        ((Rtc.set_alarm dr idr tr).2.alarms.getD idr
          Rtc.AlarmState.new).timestamp = tr)) := by
  constructor
  · refine ⟨?_, ?_, ?_⟩
    · unfold Systick.set_alarm
      by_cases h : t ≤ d.now
      · rw [if_pos h]; simp [h]
      · rw [if_neg h]; simp [h]
    · unfold Systick.set_alarm
      by_cases h : t ≤ d.now
      · rw [if_pos h]; exact fun _ => rfl
      · rw [if_neg h]; simp
    · unfold Systick.set_alarm
      by_cases h : t ≤ d.now
      · rw [if_pos h]; simp
      · rw [if_neg h]
        intro _
        show ((d.alarms.set id
          { d.alarms.getD id Systick.AlarmState.new with ts := t }).getD id
            Systick.AlarmState.new).ts = t
        rw [getD_set_self _ _ _ _ hid]
  · refine ⟨?_, ?_, ?_⟩
    · unfold Rtc.set_alarm
      by_cases h : tr ≤ (Rtc.now dr).1
      · rw [if_pos h]; simp [h]
      · rw [if_neg h]; simp [h]
    · unfold Rtc.set_alarm
      by_cases h : tr ≤ (Rtc.now dr).1
      · rw [if_pos h]; exact fun _ => rfl
      · rw [if_neg h]; simp
    · unfold Rtc.set_alarm
      by_cases h : tr ≤ (Rtc.now dr).1
      · rw [if_pos h]; simp
      · rw [if_neg h]
        intro _
        show (((Rtc.now dr).2.alarms.set idr
          { (Rtc.now dr).2.alarms.getD idr Rtc.AlarmState.new with
            timestamp := tr }).getD idr Rtc.AlarmState.new).timestamp = tr
        rw [getD_set_self ((Rtc.now dr).2.alarms) idr _ _ hidr]

/-- Witness for C4 at the concrete sample drivers and `t = 7` (in the past for
both, whose `now` is 10 resp. 50). -/
theorem c4_set_alarm_rejects_past_witness :
    (0 < Systick.sample.alarms.length ∧ 0 < Rtc.sample.alarms.length) ∧
    ((((Systick.set_alarm Systick.sample 0 7).1 = false ↔
        7 ≤ Systick.sample.now) ∧
      ((Systick.set_alarm Systick.sample 0 7).1 = false →
        (Systick.set_alarm Systick.sample 0 7).2 = Systick.sample) ∧
      ((Systick.set_alarm Systick.sample 0 7).1 = true →
        ((Systick.set_alarm Systick.sample 0 7).2.alarms.getD 0
          Systick.AlarmState.new).ts = 7)) ∧
    (((Rtc.set_alarm Rtc.sample 0 7).1 = false ↔ 7 ≤ (Rtc.now Rtc.sample).1) ∧
      ((Rtc.set_alarm Rtc.sample 0 7).1 = false →
        (Rtc.set_alarm Rtc.sample 0 7).2.alarms = Rtc.sample.alarms) ∧
      ((Rtc.set_alarm Rtc.sample 0 7).1 = true →
        ((Rtc.set_alarm Rtc.sample 0 7).2.alarms.getD 0
          Rtc.AlarmState.new).timestamp = 7))) :=
  ⟨⟨by decide, by decide⟩,
    c4_set_alarm_rejects_past Systick.sample Rtc.sample 0 0 7 7
      (by decide) (by decide)⟩

/-- Claim C1 (code bug in the source): the DMA `Transfer` future never resolves with
`Err(TransferError)`.  Concretely, after a channel interrupt that observed the hardware
error flag (`errifN` set), the subsequent poll still resolves `Ready(Ok(()))` — the
handler only logs the error, clears the flags and signals completion, and `poll` only
inspects the signal flag; the claimed `Ready(Err(TransferError))` outcome is
unreachable: no poll of any state ever produces it. -/
theorem c1_dma_error_flag_resolves_ok :
    (Dma.Transfer.poll 0 (Dma.channelInterrupt { ftf := true, err := true }
        Dma.ChannelStateInner.new).2.1).1 = .ready (.ok ()) ∧
    ∀ (w : Nat) (s : Dma.ChannelStateInner),
      (Dma.Transfer.poll w s).1 ≠ .ready (.error Dma.Error.TransferError) := by
  refine ⟨rfl, fun w s => ?_⟩
  unfold Dma.Transfer.poll
  split <;> simp

namespace Uart

/-- Inside the contiguous run starting at the tail position, the circular index does
not wrap: `(tail + k) % cap = tail % cap + k`. -/
theorem run_index_eq (rb : RingBuffer) (k : Nat) (hc : 0 < rb.cap)
    (hk : k < rb.cap - rb.tail % rb.cap) :
    (rb.tail + k) % rb.cap = rb.tail % rb.cap + k := by
  have h1 : rb.tail % rb.cap < rb.cap := Nat.mod_lt _ hc
  have hkc : k < rb.cap := by omega
  have h2 : rb.tail % rb.cap + k < rb.cap := by omega
  rw [Nat.add_mod, Nat.mod_eq_of_lt hkc, Nat.mod_eq_of_lt h2]

/-- Any prefix of the contiguous run returned by `pop_buf` is the corresponding prefix
of the FIFO contents. -/
theorem pop_buf_take_eq (rb : RingBuffer) (hc : 0 < rb.cap) (m : Nat)
    (hm : m ≤ rb.pop_buf.2) :
    rb.pop_buf.1.take m = rb.contents.take m := by
  have hm1 : m ≤ rb.available := le_trans hm (min_le_left _ _)
  have hm2 : m ≤ rb.cap - rb.tail % rb.cap := le_trans hm (min_le_right _ _)
  show ((List.range (min rb.available (rb.cap - rb.tail % rb.cap))).map
      (fun k => rb.data.getD (rb.tail % rb.cap + k) 0)).take m =
    ((List.range rb.available).map
      (fun k => rb.data.getD ((rb.tail + k) % rb.cap) 0)).take m
  rw [← List.map_take, ← List.map_take, List.take_range, List.take_range,
    min_eq_left (le_min hm1 hm2), min_eq_left hm1]
  refine List.map_congr_left (fun k hk => ?_)
  have hkm : k < m := List.mem_range.mp hk
  rw [run_index_eq rb k hc (by omega)]

/-- Consuming `len ≤ available` bytes with `pop_done` drops exactly the `len` oldest
bytes of the FIFO contents. -/
theorem pop_done_contents (rb : RingBuffer) (len : Nat) (_h : len ≤ rb.available) :
    (rb.pop_done len).contents = rb.contents.drop len := by
  apply List.ext_getElem
  · simp only [RingBuffer.contents, RingBuffer.pop_done, RingBuffer.available,
      List.length_map, List.length_range, List.length_drop]
    omega
  · intro k h1 h2
    simp only [RingBuffer.contents, RingBuffer.pop_done, RingBuffer.available,
      List.getElem_drop, List.getElem_map, List.getElem_range]
    rw [Nat.add_assoc]

/-- The oldest buffered byte sits at the physical tail position. -/
theorem contents_head_eq (rb : RingBuffer) (h : 0 < rb.available) :
    rb.contents.getD 0 0 = rb.data.getD (rb.tail % rb.cap) 0 := by
  unfold RingBuffer.contents
  rcases Nat.exists_eq_succ_of_ne_zero (Nat.pos_iff_ne_zero.mp h) with ⟨n, hn⟩
  rw [hn, List.range_succ_eq_map]
  simp

end Uart

/-- `getD` after `set`, general form. -/
theorem getD_set {α : Type} (l : List α) (i j : Nat) (a dflt : α) :
    (l.set i a).getD j dflt = if i = j ∧ i < l.length then a else l.getD j dflt := by
  rw [List.getD_eq_getElem?_getD, List.getElem?_set]
  by_cases hij : i = j
  · subst hij
    by_cases hlen : i < l.length
    · simp [hlen]
    · have hnone : l[i]? = none := by
        rw [List.getElem?_eq_none_iff]
        omega
      simp [hlen, List.getD_eq_getElem?_getD, hnone]
  · simp [hij, List.getD_eq_getElem?_getD]

namespace Systick

/-- `set_alarm` never changes the tick count. -/
theorem set_alarm_ts (d : SystickDriver) (h t : Nat) :
    (set_alarm d h t).2.ts = d.ts := by
  unfold set_alarm
  split <;> rfl

/-- `set_alarm` never changes the slot-array length. -/
theorem set_alarm_alarms_length (d : SystickDriver) (h t : Nat) :
    (set_alarm d h t).2.alarms.length = d.alarms.length := by
  unfold set_alarm
  split
  · rfl
  · simp [List.length_set]

/-- `set_alarm` never changes the allocation count. -/
theorem set_alarm_alarm_count (d : SystickDriver) (h t : Nat) :
    (set_alarm d h t).2.alarm_count = d.alarm_count := by
  unfold set_alarm
  split <;> rfl

/-- `set_alarm` writes only deadlines strictly above `now`: any slot deadline that
was strictly above `v` (for `v < now`) stays strictly above `v`. -/
theorem set_alarm_slot_lb (d : SystickDriver) (h t i v : Nat)
    (hv : v < d.now)
    (hts : v < (d.alarms.getD i AlarmState.new).ts) :
    v < ((set_alarm d h t).2.alarms.getD i AlarmState.new).ts := by
  unfold set_alarm
  split
  · exact hts
  · rename_i hacc
    show v < ((d.alarms.set h _).getD i AlarmState.new).ts
    rw [getD_set]
    split
    · simp only []
      omega
    · exact hts

/-- Field equations of `reset_slot`. -/
theorem reset_slot_ts (d : SystickDriver) (i : Nat) :
    (reset_slot d i).ts = d.ts := rfl

theorem reset_slot_alarm_count (d : SystickDriver) (i : Nat) :
    (reset_slot d i).alarm_count = d.alarm_count := rfl

theorem reset_slot_alarms (d : SystickDriver) (i : Nat) :
    (reset_slot d i).alarms =
      d.alarms.set i { d.alarms.getD i AlarmState.new with ts := U64MAX } := rfl

/-- `trigger` never changes the tick count. -/
theorem trigger_ts (env : CbEnv) (d : SystickDriver) (i : Nat) :
    (trigger env d i).ts = d.ts := by
  unfold trigger
  split
  · rw [set_alarm_ts]; rfl
  · rfl

/-- `trigger` never changes the slot-array length. -/
theorem trigger_alarms_length (env : CbEnv) (d : SystickDriver) (i : Nat) :
    (trigger env d i).alarms.length = d.alarms.length := by
  unfold trigger
  split
  · rw [set_alarm_alarms_length, reset_slot_alarms, List.length_set]
  · rw [reset_slot_alarms, List.length_set]

/-- `trigger` never changes the allocation count. -/
theorem trigger_alarm_count (env : CbEnv) (d : SystickDriver) (i : Nat) :
    (trigger env d i).alarm_count = d.alarm_count := by
  unfold trigger
  split
  · rw [set_alarm_alarm_count]; rfl
  · rfl

/-- Triggering slot `j ≠ i` (including any re-arm its callback performs) keeps slot
`i`'s deadline strictly above `old` whenever the tick count already advanced to
`old + 1`. -/
theorem trigger_other_slot (env : CbEnv) (d : SystickDriver) (j i old : Nat)
    (hji : j ≠ i) (hnow : d.ts = old + 1)
    (hts : old < (d.alarms.getD i AlarmState.new).ts) :
    old < ((trigger env d j).alarms.getD i AlarmState.new).ts := by
  have hset : old < ((reset_slot d j).alarms.getD i AlarmState.new).ts := by
    rw [reset_slot_alarms, getD_set]
    split
    · rename_i hcond
      exact absurd hcond.1 hji
    · exact hts
  unfold trigger
  split
  · refine set_alarm_slot_lb _ _ _ _ _ ?_ hset
    show old < d.ts
    omega
  · exact hset

/-- During a scan at threshold `old` (tick count already at `old + 1`), a slot whose
deadline is strictly above `old` keeps a deadline strictly above `old` and never
appears among the fired records. -/
theorem scan_cons (env : CbEnv) (old j : Nat) (rest : List Nat)
    (d : SystickDriver) :
    scan env old (j :: rest) d =
      if (d.alarms.getD j AlarmState.new).ts ≤ old then
        ((scan env old rest (trigger env d j)).1,
          (j, (d.alarms.getD j AlarmState.new).callback,
            (d.alarms.getD j AlarmState.new).ctx) ::
            (scan env old rest (trigger env d j)).2)
      else scan env old rest d := rfl

theorem scan_preserves_not_due (env : CbEnv) (old : Nat) (is : List Nat)
    (d : SystickDriver) (i : Nat)
    (hnow : d.ts = old + 1)
    (hts : old < (d.alarms.getD i AlarmState.new).ts) :
    old < (((scan env old is d).1).alarms.getD i AlarmState.new).ts ∧
    ∀ e ∈ (scan env old is d).2, e.1 ≠ i := by
  induction is generalizing d with
  | nil => exact ⟨hts, by intro e he; simp [scan] at he⟩
  | cons j rest ih =>
    rw [scan_cons]
    by_cases hdue : (d.alarms.getD j AlarmState.new).ts ≤ old
    · rw [if_pos hdue]
      have hji : j ≠ i := by
        intro hj
        subst hj
        omega
      have h1 := trigger_other_slot env d j i old hji hnow hts
      have h2 : (trigger env d j).ts = old + 1 := by rw [trigger_ts]; exact hnow
      obtain ⟨ha, hb⟩ := ih (trigger env d j) h2 h1
      refine ⟨ha, ?_⟩
      intro e he
      rcases List.mem_cons.mp he with he | he
      · subst he
        exact hji
      · exact hb e he
    · rw [if_neg hdue]
      exact ih d hnow hts

/-- The scan never changes the tick count. -/
theorem scan_ts (env : CbEnv) (old : Nat) (is : List Nat) (d : SystickDriver) :
    (scan env old is d).1.ts = d.ts := by
  induction is generalizing d with
  | nil => rfl
  | cons j rest ih =>
    rw [scan_cons]
    by_cases hdue : (d.alarms.getD j AlarmState.new).ts ≤ old
    · rw [if_pos hdue]
      show (scan env old rest (trigger env d j)).1.ts = d.ts
      rw [ih, trigger_ts]
    · rw [if_neg hdue]
      exact ih d

/-- The scan never changes the slot-array length. -/
theorem scan_alarms_length (env : CbEnv) (old : Nat) (is : List Nat)
    (d : SystickDriver) :
    (scan env old is d).1.alarms.length = d.alarms.length := by
  induction is generalizing d with
  | nil => rfl
  | cons j rest ih =>
    rw [scan_cons]
    by_cases hdue : (d.alarms.getD j AlarmState.new).ts ≤ old
    · rw [if_pos hdue]
      show (scan env old rest (trigger env d j)).1.alarms.length = d.alarms.length
      rw [ih, trigger_alarms_length]
    · rw [if_neg hdue]
      exact ih d

/-- The scan never changes the allocation count. -/
theorem scan_alarm_count (env : CbEnv) (old : Nat) (is : List Nat)
    (d : SystickDriver) :
    (scan env old is d).1.alarm_count = d.alarm_count := by
  induction is generalizing d with
  | nil => rfl
  | cons j rest ih =>
    rw [scan_cons]
    by_cases hdue : (d.alarms.getD j AlarmState.new).ts ≤ old
    · rw [if_pos hdue]
      show (scan env old rest (trigger env d j)).1.alarm_count = d.alarm_count
      rw [ih, trigger_alarm_count]
    · rw [if_neg hdue]
      exact ih d

/-- Non-re-arming callbacks reduce `trigger` to the bare deadline reset. -/
theorem trigger_noRearm_eq (d : SystickDriver) (i : Nat) :
    trigger noRearm d i = reset_slot d i := rfl

/-- Unfolding of the interrupt entry point. -/
theorem interrupt_def (env : CbEnv) (d : SystickDriver) :
    interrupt env d =
      scan env d.ts (List.range d.alarm_count)
        { d with ts := (d.ts + 1) % U64MOD } := rfl

/-- Unfolding of `run` at a successor. -/
theorem run_succ (k : Nat) (d : SystickDriver) :
    run (k + 1) d =
      ((run k (interrupt noRearm d).1).1,
        (interrupt noRearm d).2 ++ (run k (interrupt noRearm d).1).2) := rfl

/-- Triggering a due slot leaves its own deadline strictly above `old` (it becomes
`u64::MAX`, or the strictly-future deadline of an accepted re-arm). -/
theorem trigger_self_slot (env : CbEnv) (d : SystickDriver) (i old : Nat)
    (hnow : d.ts = old + 1) (hmax : old < U64MAX) (hlen : i < d.alarms.length) :
    old < ((trigger env d i).alarms.getD i AlarmState.new).ts := by
  have hset : old < ((reset_slot d i).alarms.getD i AlarmState.new).ts := by
    rw [reset_slot_alarms, getD_set, if_pos ⟨rfl, hlen⟩]
    exact hmax
  unfold trigger
  split
  · refine set_alarm_slot_lb _ _ _ _ _ ?_ hset
    show old < d.ts
    omega
  · exact hset

/-- After a scan at threshold `old` (tick count at `old + 1`), every scanned slot has
a deadline strictly above `old`. -/
theorem scan_slots_gt (env : CbEnv) (old : Nat) (is : List Nat) (d : SystickDriver)
    (hnow : d.ts = old + 1) (hmax : old < U64MAX)
    (hlen : ∀ j ∈ is, j < d.alarms.length) :
    ∀ j ∈ is, old < (((scan env old is d).1).alarms.getD j AlarmState.new).ts := by
  induction is generalizing d with
  | nil => intro j hj; simp at hj
  | cons k rest ih =>
    intro j hj
    rw [scan_cons]
    by_cases hdue : (d.alarms.getD k AlarmState.new).ts ≤ old
    · rw [if_pos hdue]
      have hnow1 : (trigger env d k).ts = old + 1 := by rw [trigger_ts]; exact hnow
      have hlen1 : ∀ j ∈ rest, j < (trigger env d k).alarms.length := by
        intro j hj
        rw [trigger_alarms_length]
        exact hlen j (List.mem_cons_of_mem _ hj)
      rcases List.mem_cons.mp hj with hjk | hj
      · subst hjk
        have hself := trigger_self_slot env d j old hnow hmax
          (hlen j (List.mem_cons_self _ _))
        exact (scan_preserves_not_due env old rest (trigger env d j) j hnow1
          hself).1
      · exact ih (trigger env d k) hnow1 hlen1 j hj
    · rw [if_neg hdue]
      rcases List.mem_cons.mp hj with hjk | hj
      · subst hjk
        exact (scan_preserves_not_due env old rest d j hnow (by omega)).1
      · exact ih d hnow (fun j hj => hlen j (List.mem_cons_of_mem _ hj)) j hj

/-- The fired slot indices form a sublist of the scanned indices. -/
theorem scan_fired_sublist (env : CbEnv) (old : Nat) (is : List Nat)
    (d : SystickDriver) :
    ((scan env old is d).2.map (fun e => e.1)).Sublist is := by
  induction is generalizing d with
  | nil => simp [scan]
  | cons k rest ih =>
    rw [scan_cons]
    by_cases hdue : (d.alarms.getD k AlarmState.new).ts ≤ old
    · rw [if_pos hdue]
      exact List.Sublist.cons₂ k (ih (trigger env d k))
    · rw [if_neg hdue]
      exact (ih d).cons k

/-- A non-re-arming scan over indices avoiding `i` neither moves slot `i` nor fires
it. -/
theorem scan_noRearm_untouched (old : Nat) (is : List Nat) (d : SystickDriver)
    (i : Nat) (hni : i ∉ is) :
    ((scan noRearm old is d).1.alarms.getD i AlarmState.new) =
      d.alarms.getD i AlarmState.new ∧
    (scan noRearm old is d).2.countP (fun e => e.1 == i) = 0 := by
  induction is generalizing d with
  | nil => exact ⟨rfl, rfl⟩
  | cons k rest ih =>
    have hki : k ≠ i := fun hk => hni (hk ▸ List.mem_cons_self _ _)
    have hrest : i ∉ rest := fun hr => hni (List.mem_cons_of_mem _ hr)
    rw [scan_cons]
    by_cases hdue : (d.alarms.getD k AlarmState.new).ts ≤ old
    · rw [if_pos hdue]
      rw [trigger_noRearm_eq]
      obtain ⟨ha, hb⟩ := ih (reset_slot d k) hrest
      constructor
      · rw [ha, reset_slot_alarms, getD_set]
        split
        · rename_i hcond
          exact absurd hcond.1 hki
        · rfl
      · rw [List.countP_cons]
        simp only [hb]
        have hpred : ((k, (d.alarms.getD k AlarmState.new).callback,
            (d.alarms.getD k AlarmState.new).ctx).1 == i) = false := by
          simp [hki]
        rw [hpred]
        simp
    · rw [if_neg hdue]
      exact ih d hrest

/-- Characterisation of a non-re-arming scan over duplicate-free indices on slot `i`:
slot `i` ends inactive exactly when it was scanned and due, and it is fired exactly
once in that case. -/
theorem scan_noRearm_count (old : Nat) (is : List Nat) (d : SystickDriver) (i : Nat)
    (hnodup : is.Nodup) (hlen : i < d.alarms.length) :
    ((scan noRearm old is d).1.alarms.getD i AlarmState.new).ts =
      (if i ∈ is ∧ (d.alarms.getD i AlarmState.new).ts ≤ old then U64MAX
       else (d.alarms.getD i AlarmState.new).ts) ∧
    (scan noRearm old is d).2.countP (fun e => e.1 == i) =
      (if i ∈ is ∧ (d.alarms.getD i AlarmState.new).ts ≤ old then 1 else 0) := by
  induction is generalizing d with
  | nil => simp [scan]
  | cons k rest ih =>
    obtain ⟨hk, hnodup'⟩ := List.nodup_cons.mp hnodup
    rw [scan_cons]
    by_cases hki : k = i
    · subst hki
      by_cases hdue : (d.alarms.getD k AlarmState.new).ts ≤ old
      · rw [if_pos hdue, trigger_noRearm_eq]
        obtain ⟨ha, hb⟩ := scan_noRearm_untouched old rest (reset_slot d k) k hk
        have hcnd : k ∈ k :: rest ∧ (d.alarms.getD k AlarmState.new).ts ≤ old :=
          ⟨List.mem_cons_self k rest, hdue⟩
        have hself : k = k ∧ k < d.alarms.length := ⟨rfl, hlen⟩
        have hslot : ((reset_slot d k).alarms.getD k AlarmState.new).ts = U64MAX := by
          rw [reset_slot_alarms, getD_set, if_pos hself]
        refine ⟨?_, ?_⟩
        · rw [if_pos hcnd, ha]
          exact hslot
        · rw [if_pos hcnd, List.countP_cons, hb]
          simp
      · rw [if_neg hdue]
        obtain ⟨ha, hb⟩ := scan_noRearm_untouched old rest d k hk
        have hcnd : ¬ (k ∈ k :: rest ∧ (d.alarms.getD k AlarmState.new).ts ≤ old) :=
          fun hc => hdue hc.2
        refine ⟨?_, ?_⟩
        · rw [if_neg hcnd, ha]
        · rw [if_neg hcnd, hb]
    · have hmemiff : i ∈ k :: rest ↔ i ∈ rest := by
        constructor
        · intro hm
          rcases List.mem_cons.mp hm with hm | hm
          · exact absurd hm.symm hki
          · exact hm
        · exact List.mem_cons_of_mem _
      have hpred : ((k, (d.alarms.getD k AlarmState.new).callback,
          (d.alarms.getD k AlarmState.new).ctx).1 == i) = false := by
        simp [hki]
      by_cases hdue : (d.alarms.getD k AlarmState.new).ts ≤ old
      · rw [if_pos hdue, trigger_noRearm_eq]
        have hslot : (reset_slot d k).alarms.getD i AlarmState.new =
            d.alarms.getD i AlarmState.new := by
          rw [reset_slot_alarms, getD_set]
          split
          · rename_i hcond
            exact absurd hcond.1 hki
          · rfl
        have hlen1 : i < (reset_slot d k).alarms.length := by
          rw [reset_slot_alarms, List.length_set]
          exact hlen
        obtain ⟨ha, hb⟩ := ih (reset_slot d k) hnodup' hlen1
        rw [hslot] at ha hb
        refine ⟨?_, ?_⟩
        · rw [ha]
          by_cases hc : i ∈ rest ∧ (d.alarms.getD i AlarmState.new).ts ≤ old
          · have hc2 : i ∈ k :: rest ∧ (d.alarms.getD i AlarmState.new).ts ≤ old :=
              ⟨hmemiff.mpr hc.1, hc.2⟩
            rw [if_pos hc, if_pos hc2]
          · have hc2 : ¬ (i ∈ k :: rest ∧
                (d.alarms.getD i AlarmState.new).ts ≤ old) :=
              fun hx => hc ⟨hmemiff.mp hx.1, hx.2⟩
            rw [if_neg hc, if_neg hc2]
        · rw [List.countP_cons, hpred, hb]
          by_cases hc : i ∈ rest ∧ (d.alarms.getD i AlarmState.new).ts ≤ old
          · have hc2 : i ∈ k :: rest ∧ (d.alarms.getD i AlarmState.new).ts ≤ old :=
              ⟨hmemiff.mpr hc.1, hc.2⟩
            rw [if_pos hc, if_pos hc2]
            simp
          · have hc2 : ¬ (i ∈ k :: rest ∧
                (d.alarms.getD i AlarmState.new).ts ≤ old) :=
              fun hx => hc ⟨hmemiff.mp hx.1, hx.2⟩
            rw [if_neg hc, if_neg hc2]
            simp
      · rw [if_neg hdue]
        obtain ⟨ha, hb⟩ := ih d hnodup' hlen
        refine ⟨?_, ?_⟩
        · rw [ha]
          by_cases hc : i ∈ rest ∧ (d.alarms.getD i AlarmState.new).ts ≤ old
          · have hc2 : i ∈ k :: rest ∧ (d.alarms.getD i AlarmState.new).ts ≤ old :=
              ⟨hmemiff.mpr hc.1, hc.2⟩
            rw [if_pos hc, if_pos hc2]
          · have hc2 : ¬ (i ∈ k :: rest ∧
                (d.alarms.getD i AlarmState.new).ts ≤ old) :=
              fun hx => hc ⟨hmemiff.mp hx.1, hx.2⟩
            rw [if_neg hc, if_neg hc2]
        · rw [hb]
          by_cases hc : i ∈ rest ∧ (d.alarms.getD i AlarmState.new).ts ≤ old
          · have hc2 : i ∈ k :: rest ∧ (d.alarms.getD i AlarmState.new).ts ≤ old :=
              ⟨hmemiff.mpr hc.1, hc.2⟩
            rw [if_pos hc, if_pos hc2]
          · have hc2 : ¬ (i ∈ k :: rest ∧
                (d.alarms.getD i AlarmState.new).ts ≤ old) :=
              fun hx => hc ⟨hmemiff.mp hx.1, hx.2⟩
            rw [if_neg hc, if_neg hc2]

/-- Characterisation of one non-re-arming SysTick interrupt on an allocated slot:
the tick count advances by one; the slot ends inactive exactly when it was due
against the pre-increment count, and it is fired exactly once in that case. -/
theorem interrupt_noRearm_char (d : SystickDriver) (i : Nat)
    (hi : i < d.alarm_count) (hlen : d.alarm_count ≤ d.alarms.length)
    (hnw : d.ts + 1 < U64MOD) :
    (interrupt noRearm d).1.ts = d.ts + 1 ∧
    (interrupt noRearm d).1.alarm_count = d.alarm_count ∧
    (interrupt noRearm d).1.alarms.length = d.alarms.length ∧
    ((interrupt noRearm d).1.alarms.getD i AlarmState.new).ts =
      (if (d.alarms.getD i AlarmState.new).ts ≤ d.ts then U64MAX
       else (d.alarms.getD i AlarmState.new).ts) ∧
    (interrupt noRearm d).2.countP (fun e => e.1 == i) =
      (if (d.alarms.getD i AlarmState.new).ts ≤ d.ts then 1 else 0) := by
  have hmod : (d.ts + 1) % U64MOD = d.ts + 1 := Nat.mod_eq_of_lt hnw
  have hmem : i ∈ List.range d.alarm_count := List.mem_range.mpr hi
  obtain ⟨ha, hb⟩ := scan_noRearm_count d.ts (List.range d.alarm_count)
    { d with ts := (d.ts + 1) % U64MOD } i (List.nodup_range _)
    (lt_of_lt_of_le hi hlen)
  rw [interrupt_def]
  refine ⟨?_, ?_, ?_, ?_, ?_⟩
  · rw [scan_ts]
    exact hmod
  · rw [scan_alarm_count]
  · rw [scan_alarms_length]
  · rw [ha]
    by_cases hdue : (d.alarms.getD i AlarmState.new).ts ≤ d.ts
    · have hcnd : i ∈ List.range d.alarm_count ∧
          (({ d with ts := (d.ts + 1) % U64MOD } :
            SystickDriver).alarms.getD i AlarmState.new).ts ≤ d.ts :=
        ⟨hmem, hdue⟩
      rw [if_pos hcnd, if_pos hdue]
    · have hcnd : ¬ (i ∈ List.range d.alarm_count ∧
          (({ d with ts := (d.ts + 1) % U64MOD } :
            SystickDriver).alarms.getD i AlarmState.new).ts ≤ d.ts) :=
        fun hc => hdue hc.2
      rw [if_neg hcnd, if_neg hdue]
  · rw [hb]
    by_cases hdue : (d.alarms.getD i AlarmState.new).ts ≤ d.ts
    · have hcnd : i ∈ List.range d.alarm_count ∧
          (({ d with ts := (d.ts + 1) % U64MOD } :
            SystickDriver).alarms.getD i AlarmState.new).ts ≤ d.ts :=
        ⟨hmem, hdue⟩
      rw [if_pos hcnd, if_pos hdue]
    · have hcnd : ¬ (i ∈ List.range d.alarm_count ∧
          (({ d with ts := (d.ts + 1) % U64MOD } :
            SystickDriver).alarms.getD i AlarmState.new).ts ≤ d.ts) :=
        fun hc => hdue hc.2
      rw [if_neg hcnd, if_neg hdue]

/-- Over any run of non-re-arming interrupts, an inactive slot stays inactive and is
never fired. -/
theorem run_count_max (k : Nat) :
    ∀ d : SystickDriver, ∀ i : Nat, i < d.alarm_count →
      d.alarm_count ≤ d.alarms.length →
      (d.alarms.getD i AlarmState.new).ts = U64MAX → d.ts + k < U64MOD →
      (run k d).2.countP (fun e => e.1 == i) = 0 := by
  induction k with
  | zero => intro d i _ _ _ _; rfl
  | succ k ih =>
    intro d i hi hlen hmax hnw
    have h64 : U64MAX + 1 = U64MOD := by decide
    have hnw1 : d.ts + 1 < U64MOD := by omega
    obtain ⟨h1, h2, h3, h4, h5⟩ := interrupt_noRearm_char d i hi hlen hnw1
    have hdue : ¬ (d.alarms.getD i AlarmState.new).ts ≤ d.ts := by
      rw [hmax]
      omega
    have hrest : (run k (interrupt noRearm d).1).2.countP (fun e => e.1 == i)
        = 0 := by
      apply ih
      · rw [h2]; exact hi
      · rw [h2, h3]; exact hlen
      · rw [h4, if_neg hdue]; exact hmax
      · rw [h1]; omega
    rw [run_succ, List.countP_append, h5, if_neg hdue, hrest]

/-- Exactly-once firing over a run of `k` non-re-arming interrupts: a slot armed at a
not-yet-past deadline `t` fires exactly once if the run reaches `t`, and not at
all otherwise. -/
theorem run_count (k : Nat) :
    ∀ d : SystickDriver, ∀ i t : Nat, i < d.alarm_count →
      d.alarm_count ≤ d.alarms.length →
      (d.alarms.getD i AlarmState.new).ts = t → d.ts ≤ t → t < U64MAX →
      d.ts + k < U64MOD →
      (run k d).2.countP (fun e => e.1 == i) =
        if t < d.ts + k then 1 else 0 := by
  induction k with
  | zero =>
    intro d i t _ _ _ hfut _ _
    have hc : ¬ t < d.ts + 0 := by omega
    rw [if_neg hc]
    rfl
  | succ k ih =>
    intro d i t hi hlen hts hfut htmax hnw
    have h64 : U64MAX + 1 = U64MOD := by decide
    have hnw1 : d.ts + 1 < U64MOD := by omega
    obtain ⟨h1, h2, h3, h4, h5⟩ := interrupt_noRearm_char d i hi hlen hnw1
    rw [run_succ, List.countP_append, h5]
    by_cases hdue : (d.alarms.getD i AlarmState.new).ts ≤ d.ts
    · have hteq : t = d.ts := by
        rw [hts] at hdue
        omega
      have hrest : (run k (interrupt noRearm d).1).2.countP (fun e => e.1 == i)
          = 0 := by
        apply run_count_max k
        · rw [h2]; exact hi
        · rw [h2, h3]; exact hlen
        · rw [h4, if_pos hdue]
        · rw [h1]; omega
      have hc : t < d.ts + (k + 1) := by omega
      rw [if_pos hdue, hrest, if_pos hc]
    · have hfut1 : (interrupt noRearm d).1.ts ≤ t := by
        rw [h1]
        rw [hts] at hdue
        omega
      have hrest := ih (interrupt noRearm d).1 i t (by rw [h2]; exact hi)
        (by rw [h2, h3]; exact hlen) (by rw [h4, if_neg hdue]; exact hts)
        hfut1 htmax (by rw [h1]; omega)
      rw [if_neg hdue, hrest, h1]
      have harith : d.ts + 1 + k = d.ts + (k + 1) := by omega
      rw [harith]
      simp

/-- A non-re-arming scan fires every scanned slot that is due, recording its stored
callback and context. -/
theorem scan_noRearm_fires (old : Nat) (is : List Nat) (j : Nat) :
    ∀ d : SystickDriver, j ∈ is → (d.alarms.getD j AlarmState.new).ts ≤ old →
      (j, (d.alarms.getD j AlarmState.new).callback,
        (d.alarms.getD j AlarmState.new).ctx) ∈ (scan noRearm old is d).2 := by
  induction is with
  | nil => intro d hj _; simp at hj
  | cons k rest ih =>
    intro d hj hdue
    rw [scan_cons]
    by_cases hkj : k = j
    · subst hkj
      rw [if_pos hdue]
      exact List.mem_cons_self _ _
    · have hj' : j ∈ rest := by
        rcases List.mem_cons.mp hj with hx | hx
        · exact absurd hx.symm hkj
        · exact hx
      have hslot : (reset_slot d k).alarms.getD j AlarmState.new =
          d.alarms.getD j AlarmState.new := by
        rw [reset_slot_alarms, getD_set]
        split
        · rename_i hcond
          exact absurd hcond.1 hkj
        · rfl
      by_cases hdk : (d.alarms.getD k AlarmState.new).ts ≤ old
      · rw [if_pos hdk, trigger_noRearm_eq]
        have hm := ih (reset_slot d k) hj' (by rw [hslot]; exact hdue)
        rw [hslot] at hm
        exact List.mem_cons_of_mem _ hm
      · rw [if_neg hdk]
        exact ih d hj' hdue

end Systick

namespace Rtc

/-- Field equations of `reset_slot`, `reset_alarm` and `now`. -/
theorem rtc_reset_slot_alarms (d : RtcDriver) (i : Nat) :
    (reset_slot d i).alarms =
      d.alarms.set i { d.alarms.getD i AlarmState.new with timestamp := U64MAX } := rfl

theorem reset_slot_hw (d : RtcDriver) (i : Nat) : (reset_slot d i).hw = d.hw := rfl

theorem reset_slot_state (d : RtcDriver) (i : Nat) :
    (reset_slot d i).state = d.state := rfl

theorem rtc_reset_slot_alarm_count (d : RtcDriver) (i : Nat) :
    (reset_slot d i).alarm_count = d.alarm_count := rfl

theorem reset_alarm_alarms (d : RtcDriver) : (reset_alarm d).alarms = d.alarms := rfl

theorem reset_alarm_hw_ovif (d : RtcDriver) :
    (reset_alarm d).hw.ovif = d.hw.ovif := rfl

theorem reset_alarm_hw_cnt (d : RtcDriver) : (reset_alarm d).hw.cnt = d.hw.cnt := rfl

theorem reset_alarm_state (d : RtcDriver) : (reset_alarm d).state = d.state := rfl

theorem reset_alarm_alarm_count (d : RtcDriver) :
    (reset_alarm d).alarm_count = d.alarm_count := rfl

theorem now_hw_ovif (d : RtcDriver) : (now d).2.hw.ovif = false := rfl

theorem now_hw_cnt (d : RtcDriver) : (now d).2.hw.cnt = d.hw.cnt := rfl

theorem now_alarms (d : RtcDriver) : (now d).2.alarms = d.alarms := rfl

theorem now_alarm_count (d : RtcDriver) : (now d).2.alarm_count = d.alarm_count := rfl

/-- The value returned by `now` re-derived from the post-state: the composition of
the stored period and the live counter. -/
theorem now_post_val (d : RtcDriver) :
    (now d).2.state.period * U32MOD + read_counter (now d).2.hw = (now d).1 := rfl

/-- `read_counter` only depends on the counter register. -/
theorem read_counter_congr (hw1 hw2 : RtcHw) (h : hw1.cnt = hw2.cnt) :
    read_counter hw1 = read_counter hw2 := by
  unfold read_counter read_cnth read_cntl
  rw [h]

/-- The value of `now` when no overflow is pending. -/
theorem now_val (d : RtcDriver) (hov : d.hw.ovif = false) :
    (now d).1 = d.state.period * U32MOD + read_counter d.hw := by
  unfold now read_time read_time_flag_step
  simp only [hov]
  rfl

/-- `now` keeps the period when no overflow is pending. -/
theorem now_period (d : RtcDriver) (hov : d.hw.ovif = false) :
    (now d).2.state.period = d.state.period := by
  unfold now read_time read_time_flag_step
  simp only [hov]
  rfl

/-- `set_alarm` does not disturb the frozen clock quantities (no pending overflow,
counter, period), nor the slot count bookkeeping. -/
theorem set_alarm_clock (d : RtcDriver) (h t : Nat) (hov : d.hw.ovif = false) :
    (set_alarm d h t).2.hw.ovif = false ∧
    (set_alarm d h t).2.hw.cnt = d.hw.cnt ∧
    (set_alarm d h t).2.state.period = d.state.period ∧
    (set_alarm d h t).2.alarms.length = d.alarms.length ∧
    (set_alarm d h t).2.alarm_count = d.alarm_count := by
  unfold set_alarm
  simp only []
  split
  · exact ⟨now_hw_ovif d, now_hw_cnt d, now_period d hov, rfl, rfl⟩
  · refine ⟨?_, ?_, ?_, ?_, ?_⟩
    · rw [reset_alarm_hw_ovif]
      exact now_hw_ovif d
    · rw [reset_alarm_hw_cnt]
      exact now_hw_cnt d
    · rw [reset_alarm_state]
      exact now_period d hov
    · rw [reset_alarm_alarms]
      show ((now d).2.alarms.set h _).length = d.alarms.length
      rw [List.length_set, now_alarms]
    · rw [reset_alarm_alarm_count]
      exact now_alarm_count d

/-- `set_alarm` writes only deadlines strictly above the (frozen) `now` value: a
slot deadline strictly above that value stays strictly above it. -/
theorem rtc_set_alarm_slot_lb (d : RtcDriver) (h t i nowv : Nat)
    (hov : d.hw.ovif = false)
    (hval : d.state.period * U32MOD + read_counter d.hw = nowv)
    (hts : nowv < (d.alarms.getD i AlarmState.new).timestamp) :
    nowv < ((set_alarm d h t).2.alarms.getD i AlarmState.new).timestamp := by
  have hnoweq : (now d).1 = nowv := by
    rw [now_val d hov]
    exact hval
  unfold set_alarm
  simp only []
  split
  · exact hts
  · rename_i hacc
    rw [reset_alarm_alarms]
    show nowv <
      (((now d).2.alarms.set h _).getD i AlarmState.new).timestamp
    rw [getD_set]
    split
    · simp only []
      omega
    · show nowv < (d.alarms.getD i AlarmState.new).timestamp
      exact hts

/-- `trigger` does not disturb the frozen clock quantities or the bookkeeping. -/
theorem trigger_clock (env : CbEnv) (d : RtcDriver) (i : Nat)
    (hov : d.hw.ovif = false) :
    (trigger env d i).hw.ovif = false ∧
    (trigger env d i).hw.cnt = d.hw.cnt ∧
    (trigger env d i).state.period = d.state.period ∧
    (trigger env d i).alarms.length = d.alarms.length ∧
    (trigger env d i).alarm_count = d.alarm_count := by
  unfold trigger
  split
  · have hov1 : (reset_slot d i).hw.ovif = false := by rw [reset_slot_hw]; exact hov
    obtain ⟨h1, h2, h3, h4, h5⟩ := set_alarm_clock (reset_slot d i) _ _ hov1
    refine ⟨h1, ?_, ?_, ?_, ?_⟩
    · rw [h2, reset_slot_hw]
    · rw [h3, reset_slot_state]
    · rw [h4, rtc_reset_slot_alarms, List.length_set]
    · rw [h5, rtc_reset_slot_alarm_count]
  · refine ⟨?_, ?_, ?_, ?_, ?_⟩
    · rw [reset_slot_hw]; exact hov
    · rw [reset_slot_hw]
    · rw [reset_slot_state]
    · rw [rtc_reset_slot_alarms, List.length_set]
    · rw [rtc_reset_slot_alarm_count]

/-- Triggering slot `j ≠ i` keeps slot `i`'s deadline strictly above the frozen
`now` value. -/
theorem rtc_trigger_other_slot (env : CbEnv) (d : RtcDriver) (j i nowv : Nat)
    (hji : j ≠ i) (hov : d.hw.ovif = false)
    (hval : d.state.period * U32MOD + read_counter d.hw = nowv)
    (hts : nowv < (d.alarms.getD i AlarmState.new).timestamp) :
    nowv < ((trigger env d j).alarms.getD i AlarmState.new).timestamp := by
  have hset : nowv < ((reset_slot d j).alarms.getD i AlarmState.new).timestamp := by
    rw [rtc_reset_slot_alarms, getD_set]
    split
    · rename_i hcond
      exact absurd hcond.1 hji
    · exact hts
  unfold trigger
  split
  · refine rtc_set_alarm_slot_lb _ _ _ _ _ ?_ ?_ hset
    · rw [reset_slot_hw]; exact hov
    · rw [reset_slot_state, reset_slot_hw]
      exact hval
  · exact hset

theorem rtc_scan_cons (env : CbEnv) (nowv j : Nat) (rest : List Nat) (d : RtcDriver) :
    scan env nowv (j :: rest) d =
      if (d.alarms.getD j AlarmState.new).timestamp ≤ nowv then
        ((scan env nowv rest (trigger env d j)).1,
          (j, (d.alarms.getD j AlarmState.new).callback,
            (d.alarms.getD j AlarmState.new).ctx) ::
            (scan env nowv rest (trigger env d j)).2)
      else scan env nowv rest d := rfl

/-- During a scan at the frozen time `nowv`, a slot whose deadline is strictly above
`nowv` keeps a deadline strictly above `nowv` and never appears among the fired
records. -/
theorem rtc_scan_preserves_not_due (env : CbEnv) (nowv : Nat) (is : List Nat)
    (d : RtcDriver) (i : Nat)
    (hov : d.hw.ovif = false)
    (hval : d.state.period * U32MOD + read_counter d.hw = nowv)
    (hts : nowv < (d.alarms.getD i AlarmState.new).timestamp) :
    nowv < (((scan env nowv is d).1).alarms.getD i AlarmState.new).timestamp ∧
    ∀ e ∈ (scan env nowv is d).2, e.1 ≠ i := by
  induction is generalizing d with
  | nil => exact ⟨hts, by intro e he; simp [scan] at he⟩
  | cons j rest ih =>
    rw [rtc_scan_cons]
    by_cases hdue : (d.alarms.getD j AlarmState.new).timestamp ≤ nowv
    · rw [if_pos hdue]
      have hji : j ≠ i := by
        intro hj
        subst hj
        omega
      obtain ⟨h1, h2, h3, _, _⟩ := trigger_clock env d j hov
      have hval1 : (trigger env d j).state.period * U32MOD +
          read_counter (trigger env d j).hw = nowv := by
        rw [h3, read_counter_congr _ d.hw h2]
        exact hval
      have hts1 := rtc_trigger_other_slot env d j i nowv hji hov hval hts
      obtain ⟨ha, hb⟩ := ih (trigger env d j) h1 hval1 hts1
      refine ⟨ha, ?_⟩
      intro e he
      rcases List.mem_cons.mp he with he | he
      · subst he
        exact hji
      · exact hb e he
    · rw [if_neg hdue]
      exact ih d hov hval hts

/-- Non-re-arming callbacks reduce the RTC `trigger` to the bare deadline reset. -/
theorem rtc_trigger_noRearm_eq (d : RtcDriver) (i : Nat) :
    trigger noRearm d i = reset_slot d i := rfl

/-- Unfolding of the RTC interrupt entry point. -/
theorem on_interrupt_def (env : CbEnv) (d : RtcDriver) :
    on_interrupt env d =
      (reset_alarm (scan env (now { d with hw := { d.hw with alrmif := false } }).1
          (List.range d.alarm_count)
          (now { d with hw := { d.hw with alrmif := false } }).2).1,
        (scan env (now { d with hw := { d.hw with alrmif := false } }).1
          (List.range d.alarm_count)
          (now { d with hw := { d.hw with alrmif := false } }).2).2) := rfl

/-- Triggering a due slot leaves its own deadline strictly above the frozen `now`
value. -/
theorem rtc_trigger_self_slot (env : CbEnv) (d : RtcDriver) (i nowv : Nat)
    (hov : d.hw.ovif = false)
    (hval : d.state.period * U32MOD + read_counter d.hw = nowv)
    (hmax : nowv < U64MAX) (hlen : i < d.alarms.length) :
    nowv < ((trigger env d i).alarms.getD i AlarmState.new).timestamp := by
  have hself : i = i ∧ i < d.alarms.length := ⟨rfl, hlen⟩
  have hset : nowv < ((reset_slot d i).alarms.getD i AlarmState.new).timestamp := by
    rw [rtc_reset_slot_alarms, getD_set, if_pos hself]
    exact hmax
  unfold trigger
  split
  · refine rtc_set_alarm_slot_lb _ _ _ _ _ ?_ ?_ hset
    · rw [reset_slot_hw]; exact hov
    · rw [reset_slot_state, reset_slot_hw]
      exact hval
  · exact hset

/-- After a scan at the frozen time `nowv < u64::MAX`, every scanned slot has a
deadline strictly above `nowv`. -/
theorem rtc_scan_slots_gt (env : CbEnv) (nowv : Nat) (is : List Nat) (d : RtcDriver)
    (hov : d.hw.ovif = false)
    (hval : d.state.period * U32MOD + read_counter d.hw = nowv)
    (hmax : nowv < U64MAX)
    (hlen : ∀ j ∈ is, j < d.alarms.length) :
    ∀ j ∈ is,
      nowv < (((scan env nowv is d).1).alarms.getD j AlarmState.new).timestamp := by
  induction is generalizing d with
  | nil => intro j hj; simp at hj
  | cons k rest ih =>
    intro j hj
    rw [rtc_scan_cons]
    by_cases hdue : (d.alarms.getD k AlarmState.new).timestamp ≤ nowv
    · rw [if_pos hdue]
      obtain ⟨h1, h2, h3, h4, _⟩ := trigger_clock env d k hov
      have hval1 : (trigger env d k).state.period * U32MOD +
          read_counter (trigger env d k).hw = nowv := by
        rw [h3, read_counter_congr _ d.hw h2]
        exact hval
      have hlen1 : ∀ j ∈ rest, j < (trigger env d k).alarms.length := by
        intro j hj
        rw [h4]
        exact hlen j (List.mem_cons_of_mem _ hj)
      rcases List.mem_cons.mp hj with hjk | hj
      · subst hjk
        have hself := rtc_trigger_self_slot env d j nowv hov hval hmax
          (hlen j (List.mem_cons_self _ _))
        exact (rtc_scan_preserves_not_due env nowv rest (trigger env d j) j h1 hval1
          hself).1
      · exact ih (trigger env d k) h1 hval1 hlen1 j hj
    · rw [if_neg hdue]
      rcases List.mem_cons.mp hj with hjk | hj
      · subst hjk
        exact (rtc_scan_preserves_not_due env nowv rest d j hov hval (by omega)).1
      · exact ih d hov hval (fun j hj => hlen j (List.mem_cons_of_mem _ hj)) j hj

/-- The fired slot indices form a sublist of the scanned indices. -/
theorem rtc_scan_fired_sublist (env : CbEnv) (nowv : Nat) (is : List Nat)
    (d : RtcDriver) :
    ((scan env nowv is d).2.map (fun e => e.1)).Sublist is := by
  induction is generalizing d with
  | nil => simp [scan]
  | cons k rest ih =>
    rw [rtc_scan_cons]
    by_cases hdue : (d.alarms.getD k AlarmState.new).timestamp ≤ nowv
    · rw [if_pos hdue]
      exact List.Sublist.cons₂ k (ih (trigger env d k))
    · rw [if_neg hdue]
      exact (ih d).cons k

/-- A non-re-arming scan over indices avoiding `i` neither moves slot `i` nor fires
it. -/
theorem rtc_scan_noRearm_untouched (nowv : Nat) (is : List Nat) (d : RtcDriver)
    (i : Nat) (hni : i ∉ is) :
    ((scan noRearm nowv is d).1.alarms.getD i AlarmState.new) =
      d.alarms.getD i AlarmState.new ∧
    (scan noRearm nowv is d).2.countP (fun e => e.1 == i) = 0 := by
  induction is generalizing d with
  | nil => exact ⟨rfl, rfl⟩
  | cons k rest ih =>
    have hki : k ≠ i := fun hk => hni (hk ▸ List.mem_cons_self _ _)
    have hrest : i ∉ rest := fun hr => hni (List.mem_cons_of_mem _ hr)
    rw [rtc_scan_cons]
    by_cases hdue : (d.alarms.getD k AlarmState.new).timestamp ≤ nowv
    · rw [if_pos hdue]
      rw [rtc_trigger_noRearm_eq]
      obtain ⟨ha, hb⟩ := ih (reset_slot d k) hrest
      constructor
      · rw [ha, rtc_reset_slot_alarms, getD_set]
        split
        · rename_i hcond
          exact absurd hcond.1 hki
        · rfl
      · rw [List.countP_cons]
        simp only [hb]
        have hpred : ((k, (d.alarms.getD k AlarmState.new).callback,
            (d.alarms.getD k AlarmState.new).ctx).1 == i) = false := by
          simp [hki]
        rw [hpred]
        simp
    · rw [if_neg hdue]
      exact ih d hrest

/-- Characterisation of a non-re-arming RTC scan over duplicate-free indices on slot
`i`: slot `i` ends inactive exactly when it was scanned and due, and it is fired
exactly once in that case. -/
theorem rtc_scan_noRearm_count (nowv : Nat) (is : List Nat) (d : RtcDriver) (i : Nat)
    (hnodup : is.Nodup) (hlen : i < d.alarms.length) :
    ((scan noRearm nowv is d).1.alarms.getD i AlarmState.new).timestamp =
      (if i ∈ is ∧ (d.alarms.getD i AlarmState.new).timestamp ≤ nowv then U64MAX
       else (d.alarms.getD i AlarmState.new).timestamp) ∧
    (scan noRearm nowv is d).2.countP (fun e => e.1 == i) =
      (if i ∈ is ∧ (d.alarms.getD i AlarmState.new).timestamp ≤ nowv then 1
       else 0) := by
  induction is generalizing d with
  | nil => simp [scan]
  | cons k rest ih =>
    obtain ⟨hk, hnodup'⟩ := List.nodup_cons.mp hnodup
    rw [rtc_scan_cons]
    by_cases hki : k = i
    · subst hki
      by_cases hdue : (d.alarms.getD k AlarmState.new).timestamp ≤ nowv
      · rw [if_pos hdue, rtc_trigger_noRearm_eq]
        obtain ⟨ha, hb⟩ := rtc_scan_noRearm_untouched nowv rest (reset_slot d k) k hk
        have hcnd : k ∈ k :: rest ∧
            (d.alarms.getD k AlarmState.new).timestamp ≤ nowv :=
          ⟨List.mem_cons_self k rest, hdue⟩
        have hself : k = k ∧ k < d.alarms.length := ⟨rfl, hlen⟩
        have hslot :
            ((reset_slot d k).alarms.getD k AlarmState.new).timestamp = U64MAX := by
          rw [rtc_reset_slot_alarms, getD_set, if_pos hself]
        refine ⟨?_, ?_⟩
        · rw [if_pos hcnd, ha]
          exact hslot
        · rw [if_pos hcnd, List.countP_cons, hb]
          simp
      · rw [if_neg hdue]
        obtain ⟨ha, hb⟩ := rtc_scan_noRearm_untouched nowv rest d k hk
        have hcnd : ¬ (k ∈ k :: rest ∧
            (d.alarms.getD k AlarmState.new).timestamp ≤ nowv) :=
          fun hc => hdue hc.2
        refine ⟨?_, ?_⟩
        · rw [if_neg hcnd, ha]
        · rw [if_neg hcnd, hb]
    · have hmemiff : i ∈ k :: rest ↔ i ∈ rest := by
        constructor
        · intro hm
          rcases List.mem_cons.mp hm with hm | hm
          · exact absurd hm.symm hki
          · exact hm
        · exact List.mem_cons_of_mem _
      have hpred : ((k, (d.alarms.getD k AlarmState.new).callback,
          (d.alarms.getD k AlarmState.new).ctx).1 == i) = false := by
        simp [hki]
      by_cases hdue : (d.alarms.getD k AlarmState.new).timestamp ≤ nowv
      · rw [if_pos hdue, rtc_trigger_noRearm_eq]
        have hslot : (reset_slot d k).alarms.getD i AlarmState.new =
            d.alarms.getD i AlarmState.new := by
          rw [rtc_reset_slot_alarms, getD_set]
          split
          · rename_i hcond
            exact absurd hcond.1 hki
          · rfl
        have hlen1 : i < (reset_slot d k).alarms.length := by
          rw [rtc_reset_slot_alarms, List.length_set]
          exact hlen
        obtain ⟨ha, hb⟩ := ih (reset_slot d k) hnodup' hlen1
        rw [hslot] at ha hb
        refine ⟨?_, ?_⟩
        · rw [ha]
          by_cases hc : i ∈ rest ∧
            (d.alarms.getD i AlarmState.new).timestamp ≤ nowv
          · have hc2 : i ∈ k :: rest ∧
                (d.alarms.getD i AlarmState.new).timestamp ≤ nowv :=
              ⟨hmemiff.mpr hc.1, hc.2⟩
            rw [if_pos hc, if_pos hc2]
          · have hc2 : ¬ (i ∈ k :: rest ∧
                (d.alarms.getD i AlarmState.new).timestamp ≤ nowv) :=
              fun hx => hc ⟨hmemiff.mp hx.1, hx.2⟩
            rw [if_neg hc, if_neg hc2]
        · rw [List.countP_cons, hpred, hb]
          by_cases hc : i ∈ rest ∧
            (d.alarms.getD i AlarmState.new).timestamp ≤ nowv
          · have hc2 : i ∈ k :: rest ∧
                (d.alarms.getD i AlarmState.new).timestamp ≤ nowv :=
              ⟨hmemiff.mpr hc.1, hc.2⟩
            rw [if_pos hc, if_pos hc2]
            simp
          · have hc2 : ¬ (i ∈ k :: rest ∧
                (d.alarms.getD i AlarmState.new).timestamp ≤ nowv) :=
              fun hx => hc ⟨hmemiff.mp hx.1, hx.2⟩
            rw [if_neg hc, if_neg hc2]
            simp
      · rw [if_neg hdue]
        obtain ⟨ha, hb⟩ := ih d hnodup' hlen
        refine ⟨?_, ?_⟩
        · rw [ha]
          by_cases hc : i ∈ rest ∧
            (d.alarms.getD i AlarmState.new).timestamp ≤ nowv
          · have hc2 : i ∈ k :: rest ∧
                (d.alarms.getD i AlarmState.new).timestamp ≤ nowv :=
              ⟨hmemiff.mpr hc.1, hc.2⟩
            rw [if_pos hc, if_pos hc2]
          · have hc2 : ¬ (i ∈ k :: rest ∧
                (d.alarms.getD i AlarmState.new).timestamp ≤ nowv) :=
              fun hx => hc ⟨hmemiff.mp hx.1, hx.2⟩
            rw [if_neg hc, if_neg hc2]
        · rw [hb]
          by_cases hc : i ∈ rest ∧
            (d.alarms.getD i AlarmState.new).timestamp ≤ nowv
          · have hc2 : i ∈ k :: rest ∧
                (d.alarms.getD i AlarmState.new).timestamp ≤ nowv :=
              ⟨hmemiff.mpr hc.1, hc.2⟩
            rw [if_pos hc, if_pos hc2]
          · have hc2 : ¬ (i ∈ k :: rest ∧
                (d.alarms.getD i AlarmState.new).timestamp ≤ nowv) :=
              fun hx => hc ⟨hmemiff.mp hx.1, hx.2⟩
            rw [if_neg hc, if_neg hc2]

/-- The scan preserves the frozen clock quantities and the bookkeeping. -/
theorem scan_clock (env : CbEnv) (nowv : Nat) (is : List Nat) (d : RtcDriver)
    (hov : d.hw.ovif = false) :
    (scan env nowv is d).1.hw.ovif = false ∧
    (scan env nowv is d).1.hw.cnt = d.hw.cnt ∧
    (scan env nowv is d).1.state.period = d.state.period ∧
    (scan env nowv is d).1.alarms.length = d.alarms.length ∧
    (scan env nowv is d).1.alarm_count = d.alarm_count := by
  induction is generalizing d with
  | nil => exact ⟨hov, rfl, rfl, rfl, rfl⟩
  | cons k rest ih =>
    rw [rtc_scan_cons]
    by_cases hdue : (d.alarms.getD k AlarmState.new).timestamp ≤ nowv
    · rw [if_pos hdue]
      obtain ⟨h1, h2, h3, h4, h5⟩ := trigger_clock env d k hov
      obtain ⟨g1, g2, g3, g4, g5⟩ := ih (trigger env d k) h1
      exact ⟨g1, by rw [g2, h2], by rw [g3, h3], by rw [g4, h4], by rw [g5, h5]⟩
    · rw [if_neg hdue]
      exact ih d hov

/-- A non-re-arming RTC scan fires every scanned slot that is due, recording its
stored callback and context. -/
theorem rtc_scan_noRearm_fires (nowv : Nat) (is : List Nat) (j : Nat) :
    ∀ d : RtcDriver, j ∈ is →
      (d.alarms.getD j AlarmState.new).timestamp ≤ nowv →
      (j, (d.alarms.getD j AlarmState.new).callback,
        (d.alarms.getD j AlarmState.new).ctx) ∈ (scan noRearm nowv is d).2 := by
  induction is with
  | nil => intro d hj _; simp at hj
  | cons k rest ih =>
    intro d hj hdue
    rw [rtc_scan_cons]
    by_cases hkj : k = j
    · subst hkj
      rw [if_pos hdue]
      exact List.mem_cons_self _ _
    · have hj' : j ∈ rest := by
        rcases List.mem_cons.mp hj with hx | hx
        · exact absurd hx.symm hkj
        · exact hx
      have hslot : (reset_slot d k).alarms.getD j AlarmState.new =
          d.alarms.getD j AlarmState.new := by
        rw [rtc_reset_slot_alarms, getD_set]
        split
        · rename_i hcond
          exact absurd hcond.1 hkj
        · rfl
      by_cases hdk : (d.alarms.getD k AlarmState.new).timestamp ≤ nowv
      · rw [if_pos hdk, rtc_trigger_noRearm_eq]
        have hm := ih (reset_slot d k) hj' (by rw [hslot]; exact hdue)
        rw [hslot] at hm
        exact List.mem_cons_of_mem _ hm
      · rw [if_neg hdk]
        exact ih d hj' hdue

/-- Characterisation of one non-re-arming RTC interrupt on an allocated slot: the
slot ends inactive exactly when its deadline was ≤ the recomputed `now`, and it is
fired exactly once in that case; the bookkeeping is preserved. -/
theorem on_interrupt_noRearm_char (dr : RtcDriver) (i : Nat)
    (hi : i < dr.alarm_count) (hlen : dr.alarm_count ≤ dr.alarms.length) :
    ((on_interrupt noRearm dr).1.alarms.getD i AlarmState.new).timestamp =
      (if (dr.alarms.getD i AlarmState.new).timestamp ≤ (now dr).1 then U64MAX
       else (dr.alarms.getD i AlarmState.new).timestamp) ∧
    (on_interrupt noRearm dr).2.countP (fun e => e.1 == i) =
      (if (dr.alarms.getD i AlarmState.new).timestamp ≤ (now dr).1 then 1
       else 0) ∧
    (on_interrupt noRearm dr).1.alarm_count = dr.alarm_count ∧
    (on_interrupt noRearm dr).1.alarms.length = dr.alarms.length := by
  have hmem : i ∈ List.range dr.alarm_count := List.mem_range.mpr hi
  obtain ⟨ha, hb⟩ := rtc_scan_noRearm_count
    (now { dr with hw := { dr.hw with alrmif := false } }).1
    (List.range dr.alarm_count)
    (now { dr with hw := { dr.hw with alrmif := false } }).2 i
    (List.nodup_range _) (lt_of_lt_of_le hi hlen)
  obtain ⟨g1, g2, g3, g4, g5⟩ := scan_clock noRearm
    (now { dr with hw := { dr.hw with alrmif := false } }).1
    (List.range dr.alarm_count)
    (now { dr with hw := { dr.hw with alrmif := false } }).2
    (now_hw_ovif _)
  rw [on_interrupt_def]
  refine ⟨?_, ?_, ?_, ?_⟩
  · rw [reset_alarm_alarms, ha]
    by_cases hdue : (dr.alarms.getD i AlarmState.new).timestamp ≤ (now dr).1
    · have hcnd : i ∈ List.range dr.alarm_count ∧
          ((now { dr with hw := { dr.hw with alrmif := false } }).2.alarms.getD i
            AlarmState.new).timestamp ≤
            (now { dr with hw := { dr.hw with alrmif := false } }).1 :=
        ⟨hmem, hdue⟩
      rw [if_pos hcnd, if_pos hdue]
    · have hcnd : ¬ (i ∈ List.range dr.alarm_count ∧
          ((now { dr with hw := { dr.hw with alrmif := false } }).2.alarms.getD i
            AlarmState.new).timestamp ≤
            (now { dr with hw := { dr.hw with alrmif := false } }).1) :=
        fun hc => hdue hc.2
      rw [if_neg hcnd, if_neg hdue]
      rfl
  · rw [hb]
    by_cases hdue : (dr.alarms.getD i AlarmState.new).timestamp ≤ (now dr).1
    · have hcnd : i ∈ List.range dr.alarm_count ∧
          ((now { dr with hw := { dr.hw with alrmif := false } }).2.alarms.getD i
            AlarmState.new).timestamp ≤
            (now { dr with hw := { dr.hw with alrmif := false } }).1 :=
        ⟨hmem, hdue⟩
      rw [if_pos hcnd, if_pos hdue]
    · have hcnd : ¬ (i ∈ List.range dr.alarm_count ∧
          ((now { dr with hw := { dr.hw with alrmif := false } }).2.alarms.getD i
            AlarmState.new).timestamp ≤
            (now { dr with hw := { dr.hw with alrmif := false } }).1) :=
        fun hc => hdue hc.2
      rw [if_neg hcnd, if_neg hdue]
  · rw [reset_alarm_alarm_count]
    exact g5
  · rw [reset_alarm_alarms]
    exact g4

/-- The two 16-bit half-reads recompose to the counter value. -/
theorem read_counter_eq (hw : RtcHw) : read_counter hw = hw.cnt := by
  unfold read_counter read_cnth read_cntl
  omega

/-- Unfolding of `runClock` on a tick. -/
theorem runClock_tick (rest : List ClockEvent) (p : RtcHw × RtcState) :
    runClock (.tick :: rest) p = runClock rest (tickHw p.1, p.2) := rfl

/-- Unfolding of `runClock` on a read. -/
theorem runClock_read (rest : List ClockEvent) (p : RtcHw × RtcState) :
    runClock (.read :: rest) p =
      ((runClock rest ((read_time p.1 p.2).2.1, (read_time p.1 p.2).2.2)).1,
        (read_time p.1 p.2).1 ::
          (runClock rest ((read_time p.1 p.2).2.1, (read_time p.1 p.2).2.2)).2) :=
  rfl

/-- A hardware tick never decreases the clock bound and keeps the counter in
range. -/
theorem tick_bound (hw : RtcHw) (s : RtcState) (hcnt : hw.cnt < U32MOD) :
    clockBound hw s ≤ clockBound (tickHw hw) s ∧ (tickHw hw).cnt < U32MOD := by
  have h32 : U32MOD = 4294967296 := by decide
  have hovr : (tickHw hw).ovif = (hw.ovif || (hw.cnt + 1 == U32MOD)) := rfl
  have hcntr : (tickHw hw).cnt = (hw.cnt + 1) % U32MOD := rfl
  refine ⟨?_, ?_⟩
  · unfold clockBound
    rw [hovr, hcntr]
    by_cases hov : hw.ovif = true
    · have htrue : (hw.ovif || (hw.cnt + 1 == U32MOD)) = true := by
        rw [hov]; rfl
      rw [if_pos hov, if_pos htrue]
    · have hovf : hw.ovif = false := by
        revert hov; cases hw.ovif <;> simp
      rw [if_neg hov]
      by_cases hc : hw.cnt + 1 = U32MOD
      · have hbeq : (hw.ovif || (hw.cnt + 1 == U32MOD)) = true := by
          rw [hovf]
          simp [hc]
        rw [if_pos hbeq]
        rw [h32] at hcnt ⊢
        omega
      · have hbeq : ¬ ((hw.ovif || (hw.cnt + 1 == U32MOD)) = true) := by
          rw [hovf]
          simp [hc]
        rw [if_neg hbeq]
        have hlt : hw.cnt + 1 < U32MOD := by omega
        rw [Nat.mod_eq_of_lt hlt]
        omega
  · rw [hcntr]
    exact Nat.mod_lt _ (by decide)

/-- An atomic `read_time` reports at least the current bound, establishes the bound
of its post-state exactly, leaves the counter alone and raises the period by at most
one. -/
theorem read_bound (hw : RtcHw) (s : RtcState) (hper : s.period + 1 < U32MOD) :
    clockBound hw s ≤ (read_time hw s).1 ∧
    (read_time hw s).1 = clockBound (read_time hw s).2.1 (read_time hw s).2.2 ∧
    (read_time hw s).2.1.cnt = hw.cnt ∧
    (read_time hw s).2.2.period ≤ s.period + 1 := by
  have hrc : read_counter { hw with ovif := false } = hw.cnt := by
    rw [read_counter_eq]
  have hval : (read_time hw s).1 =
      (if hw.ovif = true then { s with period := (s.period + 1) % U32MOD }
        else s).period * U32MOD + read_counter { hw with ovif := false } := rfl
  have hhw : (read_time hw s).2.1 = { hw with ovif := false } := rfl
  have hperiod : (read_time hw s).2.2.period =
      (if hw.ovif = true then { s with period := (s.period + 1) % U32MOD }
        else s).period := rfl
  have hmul : (s.period + 1) * U32MOD = s.period * U32MOD + U32MOD := by ring
  by_cases hov : hw.ovif = true
  · have hpmod : (s.period + 1) % U32MOD = s.period + 1 := Nat.mod_eq_of_lt hper
    have hval' : (read_time hw s).1 = (s.period + 1) * U32MOD + hw.cnt := by
      rw [hval, if_pos hov, hrc]
      show (s.period + 1) % U32MOD * U32MOD + hw.cnt = _
      rw [hpmod]
    refine ⟨?_, ?_, ?_, ?_⟩
    · rw [hval']
      unfold clockBound
      rw [if_pos hov]
      omega
    · rw [hval']
      unfold clockBound
      rw [hhw]
      rw [if_neg (by simp)]
      show _ = (read_time hw s).2.2.period * U32MOD + hw.cnt
      rw [hperiod, if_pos hov]
      show _ = (s.period + 1) % U32MOD * U32MOD + hw.cnt
      rw [hpmod]
    · rw [hhw]
    · rw [hperiod, if_pos hov]
      show (s.period + 1) % U32MOD ≤ s.period + 1
      rw [hpmod]
  · have hovf : hw.ovif = false := by
      revert hov; cases hw.ovif <;> simp
    have hval' : (read_time hw s).1 = s.period * U32MOD + hw.cnt := by
      rw [hval, if_neg hov, hrc]
    refine ⟨?_, ?_, ?_, ?_⟩
    · rw [hval']
      unfold clockBound
      rw [if_neg hov]
    · rw [hval']
      unfold clockBound
      rw [hhw]
      rw [if_neg (by simp)]
      show _ = (read_time hw s).2.2.period * U32MOD + hw.cnt
      rw [hperiod, if_neg hov]
    · rw [hhw]
    · rw [hperiod, if_neg hov]
      omega

/-- Monotonicity along any trace of atomic reads and hardware ticks: every read
value is at least `last`, and consecutive read values never decrease: the whole
output list, prefixed with any `last` below the current bound, is a `≤`-chain. -/
theorem runClock_mono (es : List ClockEvent) :
    ∀ (hw : RtcHw) (s : RtcState) (last : Nat),
      hw.cnt < U32MOD → s.period + es.length < U32MOD →
      last ≤ clockBound hw s →
      List.Chain' (· ≤ ·) (last :: (runClock es (hw, s)).2) := by
  induction es with
  | nil =>
    intro hw s last _ _ _
    simp [runClock]
  | cons e rest ih =>
    intro hw s last hcnt hper hlast
    cases e with
    | tick =>
      rw [runClock_tick]
      obtain ⟨hb, hc⟩ := tick_bound hw s hcnt
      refine ih (tickHw hw) s last hc ?_ (le_trans hlast hb)
      simp only [List.length_cons] at hper
      omega
    | read =>
      have hper1 : s.period + 1 < U32MOD := by
        simp only [List.length_cons] at hper
        omega
      obtain ⟨h1, h2, h3, h4⟩ := read_bound hw s hper1
      rw [runClock_read]
      rw [List.chain'_cons]
      constructor
      · exact le_trans hlast h1
      · have hcnt' : (read_time hw s).2.1.cnt < U32MOD := by
          rw [h3]; exact hcnt
        have hper' : (read_time hw s).2.2.period + rest.length < U32MOD := by
          simp only [List.length_cons] at hper
          omega
        exact ih (read_time hw s).2.1 (read_time hw s).2.2 (read_time hw s).1
          hcnt' hper' (le_of_eq h2)

end Rtc

/-- Counterexample to claim C2 as stated: the hardware counter is not stopped by the
critical section, so it can advance DURING a `read_time` call, between the
overflow-flag check and the counter read.  Starting with counter `2^32 - 1`, no
pending overflow and period 0, one `now()` returns `2^32 - 1`; if during the next
`read_time` the counter wraps inside that window, the call returns `0 < 2^32 - 1`:
`now()` decreases. -/
theorem c2_counterexample_wrap_during_read :
    (Rtc.read_time ⟨2 ^ 32 - 1, false, false, 0⟩ ⟨0, 0⟩).1 = 2 ^ 32 - 1 ∧
    (Rtc.read_time_with_ticks 1 ⟨2 ^ 32 - 1, false, false, 0⟩
      ⟨0, 2 ^ 32 - 1⟩).1 = 0 ∧
    (Rtc.read_time_with_ticks 1 (Rtc.read_time ⟨2 ^ 32 - 1, false, false, 0⟩
        ⟨0, 0⟩).2.1 (Rtc.read_time ⟨2 ^ 32 - 1, false, false, 0⟩ ⟨0, 0⟩).2.2).1 <
      (Rtc.read_time ⟨2 ^ 32 - 1, false, false, 0⟩ ⟨0, 0⟩).1 := by
  refine ⟨rfl, rfl, ?_⟩
  decide

/-- Claim C2 as amended: `now()` (an atomic `read_time` inside one critical section,
re-deriving the composite value from the stored period and the live counter) is
monotonic over every interleaving of reads — from tasks or from the overflow
interrupt — with hardware counter ticks occurring BETWEEN the calls, including
across 32-bit counter overflows, as long as the u32 `period` does not itself
saturate (at least one event fewer than `2^32 - period`). -/
theorem c2_now_monotonic (es : List Rtc.ClockEvent) (hw : Rtc.RtcHw)
    (s : Rtc.RtcState) (hcnt : hw.cnt < U32MOD)
    (hper : s.period + es.length < U32MOD) :
    List.Chain' (· ≤ ·) ((Rtc.runClock es (hw, s)).2) :=
  (Rtc.runClock_mono es hw s 0 hcnt hper (Nat.zero_le _)).tail

/-- Witness for the amended C2 on a trace that reads, wraps the counter by a
hardware tick between the calls, and reads again: the outputs are non-decreasing
across the overflow. -/
theorem c2_now_monotonic_witness :
    ((⟨2 ^ 32 - 1, false, false, 0⟩ : Rtc.RtcHw).cnt < U32MOD ∧
      (⟨0, 0⟩ : Rtc.RtcState).period + 3 < U32MOD) ∧
    List.Chain' (· ≤ ·)
      ((Rtc.runClock [.read, .tick, .read]
        (⟨2 ^ 32 - 1, false, false, 0⟩, ⟨0, 0⟩)).2) :=
  ⟨⟨by decide, by decide⟩,
    c2_now_monotonic [.read, .tick, .read] ⟨2 ^ 32 - 1, false, false, 0⟩ ⟨0, 0⟩
      (by decide) (by decide)⟩

/-- Claim C6: a slot whose deadline is `u64::MAX` is inactive: neither clock
interrupt handler ever invokes its callback (given that the current tick count is
strictly below `u64::MAX`), whatever re-arms the other callbacks perform. -/
theorem c6_inactive_slot_never_fires (env : CbEnv) (d : Systick.SystickDriver)
    (dr : Rtc.RtcDriver) (i ir : Nat)
    (hmax : (d.alarms.getD i Systick.AlarmState.new).ts = U64MAX)
    (htick : d.ts < U64MAX)
    (hmaxr : (dr.alarms.getD ir Rtc.AlarmState.new).timestamp = U64MAX)
    (hnowr : (Rtc.now dr).1 < U64MAX) :
    (∀ e ∈ (Systick.interrupt env d).2, e.1 ≠ i) ∧
    (∀ e ∈ (Rtc.on_interrupt env dr).2, e.1 ≠ ir) := by
  have h64 : U64MAX + 1 = U64MOD := by decide
  constructor
  · have hlt : d.ts + 1 < U64MOD := by omega
    show ∀ e ∈ (Systick.scan env d.ts (List.range d.alarm_count)
      { d with ts := (d.ts + 1) % U64MOD }).2, e.1 ≠ i
    refine (Systick.scan_preserves_not_due env d.ts _ _ i ?_ ?_).2
    · show (d.ts + 1) % U64MOD = d.ts + 1
      exact Nat.mod_eq_of_lt hlt
    · show d.ts < (d.alarms.getD i Systick.AlarmState.new).ts
      rw [hmax]
      exact htick
  · show ∀ e ∈ (Rtc.scan env (Rtc.now { dr with hw := { dr.hw with alrmif := false } }).1
      (List.range (Rtc.now { dr with hw := { dr.hw with alrmif := false } }).2.alarm_count)
      (Rtc.now { dr with hw := { dr.hw with alrmif := false } }).2).2, e.1 ≠ ir
    refine (Rtc.rtc_scan_preserves_not_due env _ _ _ ir (Rtc.now_hw_ovif _)
      (Rtc.now_post_val _) ?_).2
    show (Rtc.now { dr with hw := { dr.hw with alrmif := false } }).1 <
      ((dr.alarms.getD ir Rtc.AlarmState.new).timestamp)
    rw [hmaxr]
    exact hnowr

/-- Witness for C6 at the sample drivers: slot 1 is unallocated-inactive
(`deadline = u64::MAX`) in both. -/
theorem c6_inactive_slot_never_fires_witness :
    ((Systick.sample.alarms.getD 1 Systick.AlarmState.new).ts = U64MAX ∧
      Systick.sample.ts < U64MAX ∧
      (Rtc.sample.alarms.getD 1 Rtc.AlarmState.new).timestamp = U64MAX ∧
      (Rtc.now Rtc.sample).1 < U64MAX) ∧
    ((∀ e ∈ (Systick.interrupt noRearm Systick.sample).2, e.1 ≠ 1) ∧
      (∀ e ∈ (Rtc.on_interrupt noRearm Rtc.sample).2, e.1 ≠ 1)) :=
  ⟨⟨by decide, by decide, by decide, by decide⟩,
    c6_inactive_slot_never_fires noRearm Systick.sample Rtc.sample 1 1
      (by decide) (by decide) (by decide) (by decide)⟩

/-- Counterexample to claim C5 as stated: the SysTick handler compares deadlines
against the PRE-increment tick value.  With tick count 5 and slot 0 armed at
deadline 6, the interrupt advances the current time to 6 (`now() = 6 ≥ 6`), yet
fires nothing, and at the end of the handler the slot is still armed with
`deadline = 6 ≤ now`, which the claim forbids. -/
theorem c5_counterexample_systick_fires_late :
    (Systick.interrupt noRearm Systick.boundarySample).2 = [] ∧
    (Systick.interrupt noRearm Systick.boundarySample).1.now = 6 ∧
    ((Systick.interrupt noRearm Systick.boundarySample).1.alarms.getD 0
      Systick.AlarmState.new).ts = 6 ∧
    ((Systick.interrupt noRearm Systick.boundarySample).1.alarms.getD 0
        Systick.AlarmState.new).ts ≤
      (Systick.interrupt noRearm Systick.boundarySample).1.now ∧
    ((Systick.interrupt noRearm Systick.boundarySample).1.alarms.getD 0
      Systick.AlarmState.new).ts ≠ U64MAX := by
  decide

/-- Claim C5 as amended: the RTC handler fires every allocated slot whose deadline is
≤ the `now` it recomputes, and at the end of the handler every allocated slot's
deadline is strictly above that `now` — as claimed.  The SysTick handler instead
fires the slots whose deadline is ≤ the PRE-increment tick count: at the end of the
handler every allocated slot's deadline is strictly above the pre-increment count,
i.e. no armed slot with deadline strictly BELOW the new current time remains (a slot
whose deadline equals the new current time fires only in the next interrupt). -/
theorem c5_alarm_firing_boundary (env : CbEnv) (d : Systick.SystickDriver)
    (dr : Rtc.RtcDriver)
    (htick : d.ts < U64MAX) (hlen : d.alarm_count ≤ d.alarms.length)
    (hnowr : (Rtc.now dr).1 < U64MAX)
    (hlenr : dr.alarm_count ≤ dr.alarms.length) :
    (Systick.interrupt env d).1.ts = d.ts + 1 ∧
    (∀ j < d.alarm_count,
      d.ts <
        (((Systick.interrupt env d).1).alarms.getD j Systick.AlarmState.new).ts) ∧
    (∀ j < d.alarm_count, (d.alarms.getD j Systick.AlarmState.new).ts ≤ d.ts →
      (j, (d.alarms.getD j Systick.AlarmState.new).callback,
        (d.alarms.getD j Systick.AlarmState.new).ctx) ∈
        (Systick.interrupt noRearm d).2) ∧
    (∀ j < dr.alarm_count,
      (Rtc.now dr).1 <
        (((Rtc.on_interrupt env dr).1).alarms.getD j
          Rtc.AlarmState.new).timestamp) ∧
    (∀ j < dr.alarm_count,
      (dr.alarms.getD j Rtc.AlarmState.new).timestamp ≤ (Rtc.now dr).1 →
      (j, (dr.alarms.getD j Rtc.AlarmState.new).callback,
        (dr.alarms.getD j Rtc.AlarmState.new).ctx) ∈
        (Rtc.on_interrupt noRearm dr).2) := by
  have h64 : U64MAX + 1 = U64MOD := by decide
  have hmod : (d.ts + 1) % U64MOD = d.ts + 1 := Nat.mod_eq_of_lt (by omega)
  have hnow1 : ({ d with ts := (d.ts + 1) % U64MOD } :
      Systick.SystickDriver).ts = d.ts + 1 := hmod
  refine ⟨?_, ?_, ?_, ?_, ?_⟩
  · rw [Systick.interrupt_def, Systick.scan_ts]
    exact hmod
  · intro j hj
    rw [Systick.interrupt_def]
    exact Systick.scan_slots_gt env d.ts (List.range d.alarm_count)
      { d with ts := (d.ts + 1) % U64MOD } hnow1 htick
      (fun j hj => by
        show j < d.alarms.length
        exact lt_of_lt_of_le (List.mem_range.mp hj) hlen)
      j (List.mem_range.mpr hj)
  · intro j hj hdue
    rw [Systick.interrupt_def]
    exact Systick.scan_noRearm_fires d.ts (List.range d.alarm_count) j
      { d with ts := (d.ts + 1) % U64MOD } (List.mem_range.mpr hj) hdue
  · intro j hj
    rw [Rtc.on_interrupt_def, Rtc.reset_alarm_alarms]
    exact Rtc.rtc_scan_slots_gt env
      (Rtc.now { dr with hw := { dr.hw with alrmif := false } }).1
      (List.range dr.alarm_count)
      (Rtc.now { dr with hw := { dr.hw with alrmif := false } }).2
      (Rtc.now_hw_ovif _) (Rtc.now_post_val _) hnowr
      (fun j hj => by
        show j < dr.alarms.length
        exact lt_of_lt_of_le (List.mem_range.mp hj) hlenr)
      j (List.mem_range.mpr hj)
  · intro j hj hdue
    rw [Rtc.on_interrupt_def]
    exact Rtc.rtc_scan_noRearm_fires
      (Rtc.now { dr with hw := { dr.hw with alrmif := false } }).1
      (List.range dr.alarm_count) j
      (Rtc.now { dr with hw := { dr.hw with alrmif := false } }).2
      (List.mem_range.mpr hj) hdue

/-- Witness for the amended C5 at the sample drivers, whose slot 0 is armed in the
future (deadline 100, now 10 resp. 50). -/
theorem c5_alarm_firing_boundary_witness :
    (Systick.sample.ts < U64MAX ∧
      Systick.sample.alarm_count ≤ Systick.sample.alarms.length ∧
      (Rtc.now Rtc.sample).1 < U64MAX ∧
      Rtc.sample.alarm_count ≤ Rtc.sample.alarms.length) ∧
    ((Systick.interrupt noRearm Systick.sample).1.ts = Systick.sample.ts + 1 ∧
      (∀ j < Systick.sample.alarm_count,
        Systick.sample.ts <
          (((Systick.interrupt noRearm Systick.sample).1).alarms.getD j
            Systick.AlarmState.new).ts) ∧
      (∀ j < Systick.sample.alarm_count,
        (Systick.sample.alarms.getD j Systick.AlarmState.new).ts ≤
            Systick.sample.ts →
        (j, (Systick.sample.alarms.getD j Systick.AlarmState.new).callback,
          (Systick.sample.alarms.getD j Systick.AlarmState.new).ctx) ∈
          (Systick.interrupt noRearm Systick.sample).2) ∧
      (∀ j < Rtc.sample.alarm_count,
        (Rtc.now Rtc.sample).1 <
          (((Rtc.on_interrupt noRearm Rtc.sample).1).alarms.getD j
            Rtc.AlarmState.new).timestamp) ∧
      (∀ j < Rtc.sample.alarm_count,
        (Rtc.sample.alarms.getD j Rtc.AlarmState.new).timestamp ≤
            (Rtc.now Rtc.sample).1 →
        (j, (Rtc.sample.alarms.getD j Rtc.AlarmState.new).callback,
          (Rtc.sample.alarms.getD j Rtc.AlarmState.new).ctx) ∈
          (Rtc.on_interrupt noRearm Rtc.sample).2)) :=
  ⟨⟨by decide, by decide, by decide, by decide⟩,
    c5_alarm_firing_boundary noRearm Systick.sample Rtc.sample
      (by decide) (by decide) (by decide) (by decide)⟩

/-- Claim C3: the handlers reset a due slot's deadline to `u64::MAX` BEFORE invoking
its callback, and each arming fires exactly once.  Concretely: (1) `trigger` leaves
the slot at `u64::MAX` when its callback does not re-arm, and at the callback's own
deadline `t` when it re-arms the same handle with an accepted (strictly future) `t` —
the reset never clobbers the re-arm; (2)/(3) within one SysTick or RTC interrupt no
slot is fired twice; (4) over any run of `k` SysTick interrupts, a slot armed at a
not-yet-past deadline `t < u64::MAX` fires exactly once if the run reaches `t` and
never otherwise; (5) a due RTC slot is fired exactly once by the interrupt, ends
inactive, and a subsequent interrupt does not fire it again. -/
theorem c3_alarm_exactly_once_per_arming :
    (∀ (env : CbEnv) (d : Systick.SystickDriver) (i : Nat),
      i < d.alarms.length →
      (env (d.alarms.getD i Systick.AlarmState.new).callback
          (d.alarms.getD i Systick.AlarmState.new).ctx = none →
        ((Systick.trigger env d i).alarms.getD i Systick.AlarmState.new).ts =
          U64MAX) ∧
      (∀ t : Nat,
        env (d.alarms.getD i Systick.AlarmState.new).callback
            (d.alarms.getD i Systick.AlarmState.new).ctx = some (i, t) →
        ((Systick.trigger env d i).alarms.getD i Systick.AlarmState.new).ts =
          if t ≤ d.ts then U64MAX else t)) ∧
    (∀ (env : CbEnv) (d : Systick.SystickDriver),
      ((Systick.interrupt env d).2.map (fun e => e.1)).Nodup) ∧
    (∀ (env : CbEnv) (dr : Rtc.RtcDriver),
      ((Rtc.on_interrupt env dr).2.map (fun e => e.1)).Nodup) ∧
    (∀ (k : Nat) (d : Systick.SystickDriver) (i t : Nat),
      i < d.alarm_count → d.alarm_count ≤ d.alarms.length →
      (d.alarms.getD i Systick.AlarmState.new).ts = t → d.ts ≤ t →
      t < U64MAX → d.ts + k < U64MOD →
      (Systick.run k d).2.countP (fun e => e.1 == i) =
        if t < d.ts + k then 1 else 0) ∧
    (∀ (dr : Rtc.RtcDriver) (i : Nat),
      i < dr.alarm_count → dr.alarm_count ≤ dr.alarms.length →
      (dr.alarms.getD i Rtc.AlarmState.new).timestamp ≤ (Rtc.now dr).1 →
      (Rtc.on_interrupt noRearm dr).2.countP (fun e => e.1 == i) = 1 ∧
      ((Rtc.on_interrupt noRearm dr).1.alarms.getD i
        Rtc.AlarmState.new).timestamp = U64MAX ∧
      ((Rtc.now (Rtc.on_interrupt noRearm dr).1).1 < U64MAX →
        (Rtc.on_interrupt noRearm
          (Rtc.on_interrupt noRearm dr).1).2.countP (fun e => e.1 == i) = 0)) := by
  refine ⟨?_, ?_, ?_, ?_, ?_⟩
  · intro env d i hlen
    have hself : i = i ∧ i < d.alarms.length := ⟨rfl, hlen⟩
    constructor
    · intro henv
      unfold Systick.trigger
      rw [henv]
      show ((Systick.reset_slot d i).alarms.getD i Systick.AlarmState.new).ts =
        U64MAX
      rw [Systick.reset_slot_alarms, getD_set, if_pos hself]
    · intro t henv
      unfold Systick.trigger
      rw [henv]
      show ((Systick.set_alarm (Systick.reset_slot d i) i t).2.alarms.getD i
        Systick.AlarmState.new).ts = if t ≤ d.ts then U64MAX else t
      unfold Systick.set_alarm
      by_cases hrej : t ≤ (Systick.reset_slot d i).now
      · rw [if_pos hrej]
        have hle : t ≤ d.ts := hrej
        rw [if_pos hle]
        show ((Systick.reset_slot d i).alarms.getD i Systick.AlarmState.new).ts =
          U64MAX
        rw [Systick.reset_slot_alarms, getD_set, if_pos hself]
      · rw [if_neg hrej]
        have hgt : ¬ t ≤ d.ts := hrej
        rw [if_neg hgt]
        have hself2 : i = i ∧ i < (Systick.reset_slot d i).alarms.length :=
          ⟨rfl, by rw [Systick.reset_slot_alarms, List.length_set]; exact hlen⟩
        show (((Systick.reset_slot d i).alarms.set i
          { (Systick.reset_slot d i).alarms.getD i Systick.AlarmState.new with
            ts := t }).getD i Systick.AlarmState.new).ts = t
        rw [getD_set, if_pos hself2]
  · intro env d
    rw [Systick.interrupt_def]
    exact List.Nodup.sublist (Systick.scan_fired_sublist env d.ts _ _)
      (List.nodup_range _)
  · intro env dr
    rw [Rtc.on_interrupt_def]
    exact List.Nodup.sublist (Rtc.rtc_scan_fired_sublist env _ _ _)
      (List.nodup_range _)
  · exact fun k => Systick.run_count k
  · intro dr i hi hlen hdue
    obtain ⟨ha, hb, hcnt, hl⟩ := Rtc.on_interrupt_noRearm_char dr i hi hlen
    refine ⟨?_, ?_, ?_⟩
    · rw [hb, if_pos hdue]
    · rw [ha, if_pos hdue]
    · intro hlt
      obtain ⟨ha2, hb2, _, _⟩ := Rtc.on_interrupt_noRearm_char
        (Rtc.on_interrupt noRearm dr).1 i (by rw [hcnt]; exact hi)
        (by rw [hcnt, hl]; exact hlen)
      have hnd : ¬ (((Rtc.on_interrupt noRearm dr).1.alarms.getD i
          Rtc.AlarmState.new).timestamp ≤
          (Rtc.now (Rtc.on_interrupt noRearm dr).1).1) := by
        rw [ha, if_pos hdue]
        omega
      rw [hb2, if_neg hnd]

/-- Witness for C3 at concrete inputs: the trigger characterisation at slot 0 of the
sample SysTick driver, a 200-interrupt run of the sample driver (armed at 100 from
tick 10: exactly one firing), and the due RTC driver (slot 0 armed at 30, now 50:
fired exactly once, inactive afterwards, silent in the next interrupt). -/
theorem c3_alarm_exactly_once_per_arming_witness :
    (0 < Systick.sample.alarms.length ∧
      0 < Systick.sample.alarm_count ∧
      Systick.sample.alarm_count ≤ Systick.sample.alarms.length ∧
      (Systick.sample.alarms.getD 0 Systick.AlarmState.new).ts = 100 ∧
      Systick.sample.ts ≤ 100 ∧ (100 : Nat) < U64MAX ∧
      Systick.sample.ts + 200 < U64MOD ∧
      0 < Rtc.dueSample.alarm_count ∧
      Rtc.dueSample.alarm_count ≤ Rtc.dueSample.alarms.length ∧
      (Rtc.dueSample.alarms.getD 0 Rtc.AlarmState.new).timestamp ≤
        (Rtc.now Rtc.dueSample).1) ∧
    ((noRearm (Systick.sample.alarms.getD 0 Systick.AlarmState.new).callback
        (Systick.sample.alarms.getD 0 Systick.AlarmState.new).ctx = none →
      ((Systick.trigger noRearm Systick.sample 0).alarms.getD 0
        Systick.AlarmState.new).ts = U64MAX) ∧
    (Systick.run 200 Systick.sample).2.countP (fun e => e.1 == 0) =
      (if 100 < Systick.sample.ts + 200 then 1 else 0) ∧
    ((Rtc.on_interrupt noRearm Rtc.dueSample).2.countP (fun e => e.1 == 0) = 1 ∧
      ((Rtc.on_interrupt noRearm Rtc.dueSample).1.alarms.getD 0
        Rtc.AlarmState.new).timestamp = U64MAX ∧
      ((Rtc.now (Rtc.on_interrupt noRearm Rtc.dueSample).1).1 < U64MAX →
        (Rtc.on_interrupt noRearm
          (Rtc.on_interrupt noRearm Rtc.dueSample).1).2.countP
          (fun e => e.1 == 0) = 0))) :=
  ⟨⟨by decide, by decide, by decide, by decide, by decide, by decide, by decide,
      by decide, by decide, by decide⟩,
    (c3_alarm_exactly_once_per_arming.1 noRearm Systick.sample 0 (by decide)).1,
    c3_alarm_exactly_once_per_arming.2.2.2.1 200 Systick.sample 0 100
      (by decide) (by decide) (by decide) (by decide) (by decide) (by decide),
    c3_alarm_exactly_once_per_arming.2.2.2.2 Rtc.dueSample 0
      (by decide) (by decide) (by decide)⟩

/-- Claim C7: one poll of the buffered UART async read with a non-empty caller buffer:
if the RX ring buffer is non-empty the poll resolves `Ready(Ok(n))` without
suspending, with `n = min(contiguous run, caller buffer length)` satisfying
`1 ≤ n ≤ min(caller buffer length, contiguous run)`, the bytes delivered are the `n`
oldest buffered bytes in FIFO order and exactly those `n` bytes are removed; if the RX
ring buffer is empty the poll registers the task on the RX waker and returns
`Pending` with the buffer untouched. -/
theorem c7_uart_buffered_read (rx : Uart.RingBuffer) (bufLen : Nat)
    (hwf : rx.wf) (hbuf : 0 < bufLen) :
    (0 < rx.available →
      1 ≤ min rx.pop_buf.2 bufLen ∧
      min rx.pop_buf.2 bufLen ≤ min bufLen rx.pop_buf.2 ∧
      (Uart.inner_read rx bufLen).1 =
        .ready (rx.contents.take (min rx.pop_buf.2 bufLen)) ∧
      ((Uart.inner_read rx bufLen).2.1).contents =
        rx.contents.drop (min rx.pop_buf.2 bufLen) ∧
      (Uart.inner_read rx bufLen).2.2 = false) ∧
    (rx.available = 0 →
      Uart.inner_read rx bufLen = (.pending, rx, true)) := by
  obtain ⟨hlen, hle, hsub, hcap⟩ := hwf
  constructor
  · intro hav
    have hmod : rx.tail % rx.cap < rx.cap := Nat.mod_lt _ hcap
    have hn : 0 < rx.pop_buf.2 := by
      show 0 < min rx.available (rx.cap - rx.tail % rx.cap)
      omega
    have h1 : 1 ≤ min rx.pop_buf.2 bufLen := by omega
    have hminle : min rx.pop_buf.2 bufLen ≤ rx.pop_buf.2 := min_le_left _ _
    have havle : rx.pop_buf.2 ≤ rx.available := min_le_left _ _
    refine ⟨h1, le_of_eq (min_comm _ _), ?_, ?_, ?_⟩
    · show (if rx.pop_buf.2 = 0 then ((.pending : Poll (List Nat)), rx, true)
        else (.ready (rx.pop_buf.1.take (min rx.pop_buf.2 bufLen)),
          rx.pop_done (min rx.pop_buf.2 bufLen), false)).1 =
        .ready (rx.contents.take (min rx.pop_buf.2 bufLen))
      rw [if_neg (by omega)]
      rw [Uart.pop_buf_take_eq rx hcap _ hminle]
    · show (if rx.pop_buf.2 = 0 then ((.pending : Poll (List Nat)), rx, true)
        else (.ready (rx.pop_buf.1.take (min rx.pop_buf.2 bufLen)),
          rx.pop_done (min rx.pop_buf.2 bufLen), false)).2.1.contents =
        rx.contents.drop (min rx.pop_buf.2 bufLen)
      rw [if_neg (by omega)]
      exact Uart.pop_done_contents rx _ (by omega)
    · show (if rx.pop_buf.2 = 0 then ((.pending : Poll (List Nat)), rx, true)
        else (.ready (rx.pop_buf.1.take (min rx.pop_buf.2 bufLen)),
          rx.pop_done (min rx.pop_buf.2 bufLen), false)).2.2 = false
      rw [if_neg (by omega)]
  · intro hav
    show (if rx.pop_buf.2 = 0 then ((.pending : Poll (List Nat)), rx, true)
      else (.ready (rx.pop_buf.1.take (min rx.pop_buf.2 bufLen)),
        rx.pop_done (min rx.pop_buf.2 bufLen), false)) = (.pending, rx, true)
    rw [if_pos]
    show min rx.available (rx.cap - rx.tail % rx.cap) = 0
    omega

/-- Witness for C7 at a concrete ring buffer holding `[10, 20, 30]` with capacity 4
and a 2-byte caller buffer. -/
theorem c7_uart_buffered_read_witness :
    (Uart.RingBuffer.wf ⟨4, [10, 20, 30, 0], 3, 0⟩ ∧ 0 < 2) ∧
    ((0 < (Uart.RingBuffer.available ⟨4, [10, 20, 30, 0], 3, 0⟩) →
      1 ≤ min (Uart.RingBuffer.pop_buf ⟨4, [10, 20, 30, 0], 3, 0⟩).2 2 ∧
      min (Uart.RingBuffer.pop_buf ⟨4, [10, 20, 30, 0], 3, 0⟩).2 2 ≤
        min 2 (Uart.RingBuffer.pop_buf ⟨4, [10, 20, 30, 0], 3, 0⟩).2 ∧
      (Uart.inner_read ⟨4, [10, 20, 30, 0], 3, 0⟩ 2).1 =
        .ready ((Uart.RingBuffer.contents ⟨4, [10, 20, 30, 0], 3, 0⟩).take
          (min (Uart.RingBuffer.pop_buf ⟨4, [10, 20, 30, 0], 3, 0⟩).2 2)) ∧
      ((Uart.inner_read ⟨4, [10, 20, 30, 0], 3, 0⟩ 2).2.1).contents =
        (Uart.RingBuffer.contents ⟨4, [10, 20, 30, 0], 3, 0⟩).drop
          (min (Uart.RingBuffer.pop_buf ⟨4, [10, 20, 30, 0], 3, 0⟩).2 2) ∧
      (Uart.inner_read ⟨4, [10, 20, 30, 0], 3, 0⟩ 2).2.2 = false) ∧
    ((Uart.RingBuffer.available ⟨4, [10, 20, 30, 0], 3, 0⟩) = 0 →
      Uart.inner_read ⟨4, [10, 20, 30, 0], 3, 0⟩ 2 =
        (.pending, ⟨4, [10, 20, 30, 0], 3, 0⟩, true))) :=
  ⟨⟨by decide, by decide⟩,
    c7_uart_buffered_read ⟨4, [10, 20, 30, 0], 3, 0⟩ 2 (by decide) (by decide)⟩

/-- Counterexample to claim C8 as stated: with the TX ring buffer empty and the
transmit-buffer-empty flag set, the interrupt handler disables the `tbeie` interrupt
but does NOT signal the TX waker (the wake call sits in the pop branch, not the empty
branch): concretely, `txWake = false` where the claim requires the waker to be
signalled. -/
theorem c8_counterexample_empty_tx_does_not_wake :
    (Uart.RingBuffer.is_empty ⟨4, [0, 0, 0, 0], 0, 0⟩) = true ∧
    (Uart.on_interrupt ⟨false, false, false, false, false, true⟩
      ⟨⟨4, [0, 0, 0, 0], 0, 0⟩, ⟨4, [0, 0, 0, 0], 0, 0⟩, 0, true⟩).2.txWake = false ∧
    (Uart.on_interrupt ⟨false, false, false, false, false, true⟩
      ⟨⟨4, [0, 0, 0, 0], 0, 0⟩, ⟨4, [0, 0, 0, 0], 0, 0⟩, 0, true⟩).1.tbeie = false := by
  decide

/-- Claim C8 as amended: for every transmit-buffer-empty interrupt, if the TX ring
buffer is non-empty the handler pops exactly one byte (the oldest, FIFO order), writes
it to the hardware data register and signals the TX waker; if the TX ring buffer is
empty the handler disables the `tbeie` interrupt and does not signal the TX waker
(writers and flush are woken by the per-byte wake of the pop branch instead). -/
theorem c8_uart_tx_interrupt (stat0 : Uart.Stat0) (st : Uart.UartIrqState)
    (htbe : stat0.tbe = true) (hwf : st.tx.wf) :
    (0 < st.tx.available →
      (Uart.on_interrupt stat0 st).2.wroteData = some (st.tx.contents.getD 0 0) ∧
      (Uart.on_interrupt stat0 st).1.dataReg = st.tx.contents.getD 0 0 ∧
      (Uart.on_interrupt stat0 st).1.tx.contents = st.tx.contents.drop 1 ∧
      (Uart.on_interrupt stat0 st).2.txWake = true ∧
      (Uart.on_interrupt stat0 st).1.tbeie = st.tbeie) ∧
    (st.tx.available = 0 →
      (Uart.on_interrupt stat0 st).1.tbeie = false ∧
      (Uart.on_interrupt stat0 st).2.txWake = false ∧
      (Uart.on_interrupt stat0 st).2.wroteData = none ∧
      (Uart.on_interrupt stat0 st).1.tx = st.tx) := by
  obtain ⟨hlen, hle, hsub, hcap⟩ := hwf
  have hrx_tx : (Uart.rx_service stat0 st).1.tx = st.tx := by
    unfold Uart.rx_service
    split <;> rfl
  have hrx_tbeie : (Uart.rx_service stat0 st).1.tbeie = st.tbeie := by
    unfold Uart.rx_service
    split <;> rfl
  constructor
  · intro hav
    have hne : (Uart.rx_service stat0 st).1.tx.head ≠ (Uart.rx_service stat0 st).1.tx.tail := by
      rw [hrx_tx]
      simp only [Uart.RingBuffer.available] at hav
      omega
    have hpop : (Uart.rx_service stat0 st).1.tx.pop_one =
        (some ((Uart.rx_service stat0 st).1.tx.data.getD
            ((Uart.rx_service stat0 st).1.tx.tail % (Uart.rx_service stat0 st).1.tx.cap) 0),
          { (Uart.rx_service stat0 st).1.tx with
              tail := (Uart.rx_service stat0 st).1.tx.tail + 1 }) := by
      unfold Uart.RingBuffer.pop_one
      rw [if_neg hne]
    have hbyte : (Uart.rx_service stat0 st).1.tx.data.getD
        ((Uart.rx_service stat0 st).1.tx.tail % (Uart.rx_service stat0 st).1.tx.cap) 0 =
        st.tx.contents.getD 0 0 := by
      rw [hrx_tx, Uart.contents_head_eq st.tx hav]
    have htail : ({ (Uart.rx_service stat0 st).1.tx with
        tail := (Uart.rx_service stat0 st).1.tx.tail + 1 } : Uart.RingBuffer) =
        st.tx.pop_done 1 := by
      rw [hrx_tx]; rfl
    show ((Uart.tx_service stat0 (Uart.rx_service stat0 st).1).2.2 = _) ∧
      ((Uart.tx_service stat0 (Uart.rx_service stat0 st).1).1.dataReg = _) ∧
      ((Uart.tx_service stat0 (Uart.rx_service stat0 st).1).1.tx.contents = _) ∧
      ((Uart.tx_service stat0 (Uart.rx_service stat0 st).1).2.1 = true) ∧
      ((Uart.tx_service stat0 (Uart.rx_service stat0 st).1).1.tbeie = st.tbeie)
    unfold Uart.tx_service
    rw [htbe, if_pos rfl, hpop]
    refine ⟨by rw [hbyte], by rw [hbyte], ?_, rfl, hrx_tbeie⟩
    show ({ (Uart.rx_service stat0 st).1.tx with
        tail := (Uart.rx_service stat0 st).1.tx.tail + 1 } : Uart.RingBuffer).contents = _
    rw [htail]
    exact Uart.pop_done_contents st.tx 1 (by omega)
  · intro hav
    have heq : (Uart.rx_service stat0 st).1.tx.head = (Uart.rx_service stat0 st).1.tx.tail := by
      rw [hrx_tx]
      simp only [Uart.RingBuffer.available] at hav
      omega
    have hpop : (Uart.rx_service stat0 st).1.tx.pop_one =
        (none, (Uart.rx_service stat0 st).1.tx) := by
      unfold Uart.RingBuffer.pop_one
      rw [if_pos heq]
    show ((Uart.tx_service stat0 (Uart.rx_service stat0 st).1).1.tbeie = false) ∧
      ((Uart.tx_service stat0 (Uart.rx_service stat0 st).1).2.1 = false) ∧
      ((Uart.tx_service stat0 (Uart.rx_service stat0 st).1).2.2 = none) ∧
      ((Uart.tx_service stat0 (Uart.rx_service stat0 st).1).1.tx = st.tx)
    unfold Uart.tx_service
    rw [htbe, if_pos rfl, hpop]
    exact ⟨rfl, rfl, rfl, hrx_tx⟩

/-- Witness for the amended C8 at a TX buffer holding `[65, 66]` with capacity 4. -/
theorem c8_uart_tx_interrupt_witness :
    ((⟨false, false, false, false, false, true⟩ : Uart.Stat0).tbe = true ∧
      Uart.RingBuffer.wf ⟨4, [65, 66, 0, 0], 2, 0⟩) ∧
    ((0 < Uart.RingBuffer.available ⟨4, [65, 66, 0, 0], 2, 0⟩ →
      (Uart.on_interrupt ⟨false, false, false, false, false, true⟩
        ⟨⟨4, [0, 0, 0, 0], 0, 0⟩, ⟨4, [65, 66, 0, 0], 2, 0⟩, 0, true⟩).2.wroteData =
        some ((Uart.RingBuffer.contents ⟨4, [65, 66, 0, 0], 2, 0⟩).getD 0 0) ∧
      (Uart.on_interrupt ⟨false, false, false, false, false, true⟩
        ⟨⟨4, [0, 0, 0, 0], 0, 0⟩, ⟨4, [65, 66, 0, 0], 2, 0⟩, 0, true⟩).1.dataReg =
        (Uart.RingBuffer.contents ⟨4, [65, 66, 0, 0], 2, 0⟩).getD 0 0 ∧
      (Uart.on_interrupt ⟨false, false, false, false, false, true⟩
        ⟨⟨4, [0, 0, 0, 0], 0, 0⟩, ⟨4, [65, 66, 0, 0], 2, 0⟩, 0, true⟩).1.tx.contents =
        (Uart.RingBuffer.contents ⟨4, [65, 66, 0, 0], 2, 0⟩).drop 1 ∧
      (Uart.on_interrupt ⟨false, false, false, false, false, true⟩
        ⟨⟨4, [0, 0, 0, 0], 0, 0⟩, ⟨4, [65, 66, 0, 0], 2, 0⟩, 0, true⟩).2.txWake = true ∧
      (Uart.on_interrupt ⟨false, false, false, false, false, true⟩
        ⟨⟨4, [0, 0, 0, 0], 0, 0⟩, ⟨4, [65, 66, 0, 0], 2, 0⟩, 0, true⟩).1.tbeie = true) ∧
    (Uart.RingBuffer.available ⟨4, [65, 66, 0, 0], 2, 0⟩ = 0 →
      (Uart.on_interrupt ⟨false, false, false, false, false, true⟩
        ⟨⟨4, [0, 0, 0, 0], 0, 0⟩, ⟨4, [65, 66, 0, 0], 2, 0⟩, 0, true⟩).1.tbeie = false ∧
      (Uart.on_interrupt ⟨false, false, false, false, false, true⟩
        ⟨⟨4, [0, 0, 0, 0], 0, 0⟩, ⟨4, [65, 66, 0, 0], 2, 0⟩, 0, true⟩).2.txWake = false ∧
      (Uart.on_interrupt ⟨false, false, false, false, false, true⟩
        ⟨⟨4, [0, 0, 0, 0], 0, 0⟩, ⟨4, [65, 66, 0, 0], 2, 0⟩, 0, true⟩).2.wroteData = none ∧
      (Uart.on_interrupt ⟨false, false, false, false, false, true⟩
        ⟨⟨4, [0, 0, 0, 0], 0, 0⟩, ⟨4, [65, 66, 0, 0], 2, 0⟩, 0, true⟩).1.tx =
        ⟨4, [65, 66, 0, 0], 2, 0⟩)) :=
  ⟨⟨by decide, by decide⟩,
    c8_uart_tx_interrupt ⟨false, false, false, false, false, true⟩
      ⟨⟨4, [0, 0, 0, 0], 0, 0⟩, ⟨4, [65, 66, 0, 0], 2, 0⟩, 0, true⟩
      (by decide) (by decide)⟩

/-- Claim C9: a receive interrupt observing `rbne` while the RX ring buffer is full
reads the byte from the data register and silently discards it: a warning is logged,
the RX ring buffer (hence what the reader will see) is unchanged, no error is
surfaced, and the RX waker is still woken. -/
theorem c9_uart_rx_full_drops_byte (stat0 : Uart.Stat0) (st : Uart.UartIrqState)
    (hrbne : stat0.rbne = true) (hfull : st.rx.available = st.rx.cap) :
    (Uart.on_interrupt stat0 st).1.rx = st.rx ∧
    (Uart.on_interrupt stat0 st).2.rxWake = true ∧
    Uart.Warning.rxBufferFull ∈ (Uart.on_interrupt stat0 st).2.warnings := by
  have hcond : st.rx.head - st.rx.tail = st.rx.cap := hfull
  have hpush : st.rx.push_one st.dataReg = (false, st.rx) := by
    unfold Uart.RingBuffer.push_one
    rw [if_pos hcond]
  have hrx : Uart.rx_service stat0 st =
      (st, true, [Uart.Warning.rxBufferFull]) := by
    unfold Uart.rx_service
    rw [hrbne, if_pos rfl]
    simp [hpush]
  have htx_rx : ∀ (u : Uart.UartIrqState), (Uart.tx_service stat0 u).1.rx = u.rx := by
    intro u
    unfold Uart.tx_service
    split
    · split <;> rfl
    · rfl
  refine ⟨?_, ?_, ?_⟩
  · show (Uart.tx_service stat0 (Uart.rx_service stat0 st).1).1.rx = st.rx
    rw [hrx, htx_rx]
  · show (Uart.rx_service stat0 st).2.1 = true
    rw [hrx]
  · show Uart.Warning.rxBufferFull ∈
      Uart.line_warnings stat0 ++ (Uart.rx_service stat0 st).2.2
    rw [hrx]
    exact List.mem_append_right _ (List.mem_singleton.mpr rfl)

/-- Witness for C9 at a full RX buffer of capacity 2 holding `[1, 2]`. -/
theorem c9_uart_rx_full_drops_byte_witness :
    ((⟨false, false, false, false, true, false⟩ : Uart.Stat0).rbne = true ∧
      Uart.RingBuffer.available ⟨2, [1, 2], 2, 0⟩ =
        (Uart.RingBuffer.cap ⟨2, [1, 2], 2, 0⟩)) ∧
    ((Uart.on_interrupt ⟨false, false, false, false, true, false⟩
        ⟨⟨2, [1, 2], 2, 0⟩, ⟨2, [0, 0], 0, 0⟩, 77, true⟩).1.rx = ⟨2, [1, 2], 2, 0⟩ ∧
      (Uart.on_interrupt ⟨false, false, false, false, true, false⟩
        ⟨⟨2, [1, 2], 2, 0⟩, ⟨2, [0, 0], 0, 0⟩, 77, true⟩).2.rxWake = true ∧
      Uart.Warning.rxBufferFull ∈
        (Uart.on_interrupt ⟨false, false, false, false, true, false⟩
          ⟨⟨2, [1, 2], 2, 0⟩, ⟨2, [0, 0], 0, 0⟩, 77, true⟩).2.warnings) :=
  ⟨⟨by decide, by decide⟩,
    c9_uart_rx_full_drops_byte ⟨false, false, false, false, true, false⟩
      ⟨⟨2, [1, 2], 2, 0⟩, ⟨2, [0, 0], 0, 0⟩, 77, true⟩ (by decide) (by decide)⟩

/-- Claim C10: each of `dma::read`, `dma::read_repeated`, `dma::write`,
`dma::write_repeated` resets the channel's completion state (signal cleared, waker
registration cleared) before configuring and enabling the channel, inside the same
interrupt-disabled scope; consequently the first poll of the returned `Transfer`
future returns `Pending` (registering the polling waker) regardless of any completion
left over from a previous transfer on the channel. -/
theorem c10_dma_entry_points_reset_completion_state :
    ∀ (sw dw src dest count w : Nat) (s : Dma.ChannelStateInner)
      (regs : Dma.ChannelRegs),
      ((Dma.read sw dw src dest count s regs).1 = Dma.ChannelStateInner.new ∧
        (Dma.read_repeated sw dw src dest count s regs).1 = Dma.ChannelStateInner.new ∧
        (Dma.write sw dw src dest count s regs).1 = Dma.ChannelStateInner.new ∧
        (Dma.write_repeated sw dw src dest count s regs).1 =
          Dma.ChannelStateInner.new) ∧
      (Dma.Transfer.poll w (Dma.read sw dw src dest count s regs).1).1 = .pending ∧
      (Dma.Transfer.poll w (Dma.read_repeated sw dw src dest count s regs).1).1 =
        .pending ∧
      (Dma.Transfer.poll w (Dma.write sw dw src dest count s regs).1).1 = .pending ∧
      (Dma.Transfer.poll w (Dma.write_repeated sw dw src dest count s regs).1).1 =
        .pending := by
  intro sw dw src dest count w s regs
  refine ⟨⟨rfl, rfl, rfl, rfl⟩, rfl, rfl, rfl, rfl⟩

end Gd32
